import Mathlib

/-!
# beacon-kit: the DepositMessage codec and the ABCI middleware forwarding loop

A shallow embedding of

* `mod/consensus-types/pkg/types/deposit_message.ssz.go` (the generated SSZ codec of
  `DepositMessage`), and
* `mod/runtime/pkg/middleware/middleware.go` (`ABCIMiddleware.start`, the background
  forwarding loop),

followed by the properties established about them.

Conventions. A Go `byte` is a `Nat` below `256`, a Go `uint64` is a `Nat` below `2 ^ 64`;
a Go slice `[]byte` is a `List Nat`. A fixed array `[48]byte` is a list together with
the well-formedness predicate `DepositMessage.WellFormed`. A Go method with a pointer
receiver that returns `error` is a function from the receiver to the receiver after the
call, paired with `Option SszError` (`none` is the `nil` error).
-/

namespace BeaconKit

/-! ## Go built-ins used by the generated codec -/

/-- Go `append(dst, src...)`. -/
def goAppend (dst src : List Nat) : List Nat := dst ++ src

/-- Go `copy(dst, src)`: overwrites the first `min (len dst) (len src)` cells of `dst`. -/
def goCopy (dst src : List Nat) : List Nat :=
  src.take (min dst.length src.length) ++ dst.drop (min dst.length src.length)

/-- Go slice expression `buf[lo:hi]` (for `lo ≤ hi ≤ len buf`). -/
def goSlice (buf : List Nat) (lo hi : Nat) : List Nat := (buf.drop lo).take (hi - lo)

/-- Conversion `uint64(x)`. -/
def toUint64 (x : Nat) : Nat := x % 2 ^ 64

/-- Conversion `byte(x)`. -/
def toByte (x : Nat) : Nat := x % 256

/-! ## fastssz helpers (`github.com/ferranbt/fastssz`)

`MarshalUint64` is `binary.LittleEndian.PutUint64` followed by `append`;
`UnmarshallUint64` is `binary.LittleEndian.Uint64`. -/

/-- The error values of the codec; only `ssz.ErrSize` is produced here. -/
inductive SszError where
  | ErrSize
deriving DecidableEq, Repr

/-- Go `binary.LittleEndian.PutUint64`: the eight bytes `byte(v >> (8*k))`, `k = 0..7`. -/
def putUint64LE (v : Nat) : List Nat :=
  [toByte v, toByte (v >>> 8), toByte (v >>> 16), toByte (v >>> 24),
   toByte (v >>> 32), toByte (v >>> 40), toByte (v >>> 48), toByte (v >>> 56)]

/-- Function `ssz.MarshalUint64(dst, i)`. -/
def MarshalUint64 (dst : List Nat) (i : Nat) : List Nat :=
  goAppend dst (putUint64LE (toUint64 i))

/-- Function `ssz.UnmarshallUint64(src)`, that is `binary.LittleEndian.Uint64(src)`:
`uint64(b[0]) | uint64(b[1])<<8 | ... | uint64(b[7])<<56`. The generated code only
calls it on a slice of exactly eight bytes. -/
def UnmarshallUint64 (src : List Nat) : Nat :=
  toUint64 (src.getD 0 0) ||| toUint64 (toUint64 (src.getD 1 0) <<< 8)
    ||| toUint64 (toUint64 (src.getD 2 0) <<< 16)
    ||| toUint64 (toUint64 (src.getD 3 0) <<< 24)
    ||| toUint64 (toUint64 (src.getD 4 0) <<< 32)
    ||| toUint64 (toUint64 (src.getD 5 0) <<< 40)
    ||| toUint64 (toUint64 (src.getD 6 0) <<< 48)
    ||| toUint64 (toUint64 (src.getD 7 0) <<< 56)

/-! ## DepositMessage and its generated codec -/

/-- The Go struct `DepositMessage`: `Pubkey [48]byte`, `Credentials [32]byte`,
`Amount math.Gwei` (a `uint64`). -/
structure DepositMessage where
  Pubkey : List Nat
  Credentials : List Nat
  Amount : Nat
deriving DecidableEq, Repr

/-- The values the Go type admits: 48 and 32 bytes, and a `uint64`. -/
def DepositMessage.WellFormed (d : DepositMessage) : Prop :=
  d.Pubkey.length = 48 ∧ d.Credentials.length = 32 ∧ d.Amount < 2 ^ 64 ∧
    (∀ b ∈ d.Pubkey, b < 256) ∧ (∀ b ∈ d.Credentials, b < 256)

instance (d : DepositMessage) : Decidable d.WellFormed := by
  unfold DepositMessage.WellFormed; infer_instance

/-- Method `(*DepositMessage).MarshalSSZTo(buf)`: the result slice and the error. -/
def DepositMessage.MarshalSSZTo (d : DepositMessage) (buf : List Nat) :
    List Nat × Option SszError :=
  let dst := buf
  -- Field (0) 'Pubkey'
  let dst := goAppend dst d.Pubkey
  -- Field (1) 'Credentials'
  let dst := goAppend dst d.Credentials
  -- Field (2) 'Amount'
  let dst := MarshalUint64 dst (toUint64 d.Amount)
  (dst, none)

/-- Method `(*DepositMessage).UnmarshalSSZ(buf)`: the receiver after the call and the
returned error. -/
def DepositMessage.UnmarshalSSZ (d : DepositMessage) (buf : List Nat) :
    DepositMessage × Option SszError :=
  let size := toUint64 buf.length
  if size ≠ 88 then
    (d, some SszError.ErrSize)
  else
    -- Field (0) 'Pubkey'
    let d := { d with Pubkey := goCopy d.Pubkey (goSlice buf 0 48) }
    -- Field (1) 'Credentials'
    let d := { d with Credentials := goCopy d.Credentials (goSlice buf 48 80) }
    -- Field (2) 'Amount'
    let d := { d with Amount := UnmarshallUint64 (goSlice buf 80 88) }
    (d, none)

/-- Method `(*DepositMessage).SizeSSZ()`. -/
def DepositMessage.SizeSSZ (_d : DepositMessage) : Nat := 88

/-! ## Hashing walk of DepositMessage -/

/-- The methods of the interface `ssz.HashWalker` that the generated code calls, over an
arbitrary hasher state `H`. Every method may change the hasher. -/
structure HashWalker (H : Type) where
  Index : H → Nat × H
  PutBytes : H → List Nat → H
  PutUint64 : H → Nat → H
  Merkleize : H → Nat → H

/-- Method `(*DepositMessage).HashTreeRootWith(hh)`: the hasher after the call and the
returned error. -/
def DepositMessage.HashTreeRootWith {H : Type} (d : DepositMessage) (hh : HashWalker H)
    (h : H) : H × Option SszError :=
  let (indx, h) := hh.Index h
  -- Field (0) 'Pubkey'
  let h := hh.PutBytes h d.Pubkey
  -- Field (1) 'Credentials'
  let h := hh.PutBytes h d.Credentials
  -- Field (2) 'Amount'
  let h := hh.PutUint64 h (toUint64 d.Amount)
  let h := hh.Merkleize h indx
  (h, none)

/-- One call received by a hasher. -/
inductive HashCall where
  | index
  | putBytes (b : List Nat)
  | putUint64 (v : Nat)
  | merkleize (indx : Nat)
deriving DecidableEq, Repr

/-- A hasher that only records the calls it receives, in order; `Index` answers `idx`. -/
def recordingWalker (idx : Nat) : HashWalker (List HashCall) where
  Index := fun h => (idx, h ++ [HashCall.index])
  PutBytes := fun h b => h ++ [HashCall.putBytes b]
  PutUint64 := fun h v => h ++ [HashCall.putUint64 v]
  Merkleize := fun h i => h ++ [HashCall.merkleize i]

/-! ## The forwarding loop `ABCIMiddleware.start`

The goroutine is a transition system. Its control points are `PC`; one move of the
goroutine is an element of `loopSteps`; the rest of the node (the feeds, the consumers
of the delivery channels, the owner of the context) moves by `envStep`. A buffered Go
channel is the list of the values it holds, oldest first, and a send on a full channel
or a receive on an empty one is a move that is not enabled. -/

/-- Modelled from the spec: the event type constants of package `events`, which is not
part of the sources at hand. The five constants named by the loop are kept apart from
every other event type `other tag`. -/
inductive EventType where
  | BeaconBlockBuilt
  | BeaconBlockVerified
  | BlobSidecarsBuilt
  | BlobSidecarsVerified
  | BlobSidecarsProcessed
  | other (tag : Nat)
deriving DecidableEq, Repr

/-- Modelled from the spec: `asynctypes.Event[T]`, an immutable record with a type tag
(read by `Type()`) and a payload. -/
structure Event (T : Type) where
  type : EventType
  data : T
deriving DecidableEq, Repr

/-- Modelled from the spec: the subscriber registry of `event.FeedOf`. `Subscribe`
registers a channel and returns a handle; `Unsubscribe` removes that handle. Handles
are numbered in order of registration. -/
structure FeedOf where
  next : Nat
  subs : List Nat
deriving DecidableEq, Repr

/-- Modelled from the spec: `Subscribe` registers a new subscription and returns its
handle. -/
def FeedOf.Subscribe (f : FeedOf) : Nat × FeedOf :=
  (f.next, { next := f.next + 1, subs := f.subs ++ [f.next] })

/-- Modelled from the spec: `Unsubscribe` deregisters the handle. -/
def FeedOf.Unsubscribe (f : FeedOf) (h : Nat) : FeedOf :=
  { f with subs := f.subs.filter (fun x => x != h) }

/-- Capacity of each channel of the middleware and of the loop: `make(chan ..., 1)`. -/
def chanCap : Nat := 1

/-- Control points of `start`. -/
inductive PC (B S : Type) where
  /-- before `am.blkFeed.Subscribe(subBlkCh)` -/
  | entry
  /-- before `am.sidecarsFeed.Subscribe(subSidecarsCh)` -/
  | blkSubscribed
  /-- at the `select` of the `for` loop -/
  | select
  /-- at `am.blkCh <- msg` -/
  | sendBlk (msg : Event B)
  /-- at `am.sidecarsCh <- msg` -/
  | sendSidecars (msg : Event S)
  /-- after `return`, before the deferred `sidecarsSub.Unsubscribe()` -/
  | deferSidecars
  /-- before the deferred `blkSub.Unsubscribe()` -/
  | deferBlk
  /-- the function has returned -/
  | returned
deriving DecidableEq, Repr

/-- What the goroutine does in one move. -/
inductive Act (B S : Type) where
  | subscribeBlk (h : Nat)
  | subscribeSidecars (h : Nat)
  | ctxDone
  | recvBlk (msg : Event B)
  | recvSidecars (msg : Event S)
  | putBlk (msg : Event B)
  | putSidecars (msg : Event S)
  | unsubscribeSidecars (h : Nat)
  | unsubscribeBlk (h : Nat)
deriving DecidableEq, Repr

/-- The middleware fields and the locals of `start`, with two histories that no move
reads: `trace`, the moves the goroutine made, and `fedBlk`/`fedSidecars`, the events
the feeds wrote into the two subscription channels. -/
structure State (B S : Type) where
  pc : PC B S
  ctxDone : Bool
  blkFeed : FeedOf
  sidecarsFeed : FeedOf
  blkSub : Option Nat
  sidecarsSub : Option Nat
  subBlkCh : List (Event B)
  subSidecarsCh : List (Event S)
  blkCh : List (Event B)
  sidecarsCh : List (Event S)
  trace : List (Act B S)
  fedBlk : List (Event B)
  fedSidecars : List (Event S)
deriving DecidableEq, Repr

variable {B S : Type}

/-- The state in which `go am.start(ctx)` begins: all channels freshly made. -/
def State.init (blkFeed sidecarsFeed : FeedOf) : State B S :=
  { pc := PC.entry, ctxDone := false, blkFeed := blkFeed, sidecarsFeed := sidecarsFeed,
    blkSub := none, sidecarsSub := none, subBlkCh := [], subSidecarsCh := [],
    blkCh := [], sidecarsCh := [], trace := [], fedBlk := [], fedSidecars := [] }

/-- The `switch msg.Type()` of `case msg := <-subBlkCh`: the control point reached. -/
def onBlkMsg (msg : Event B) : PC B S :=
  match msg.type with
  | EventType.BeaconBlockBuilt => PC.sendBlk msg
  | EventType.BeaconBlockVerified => PC.sendBlk msg
  | _ => PC.select

/-- The `switch msg.Type()` of `case msg := <-subSidecarsCh`. -/
def onSidecarsMsg (msg : Event S) : PC B S :=
  match msg.type with
  | EventType.BlobSidecarsBuilt => PC.sendSidecars msg
  | EventType.BlobSidecarsVerified => PC.sendSidecars msg
  | EventType.BlobSidecarsProcessed => PC.sendSidecars msg
  | _ => PC.select

/-- Branch `case <-ctx.Done(): return` of the select. -/
def selectCtxDone (s : State B S) : List (State B S) :=
  if s.ctxDone then
    [{ s with pc := PC.deferSidecars, trace := s.trace ++ [Act.ctxDone] }]
  else []

/-- Branch `case msg := <-subBlkCh` of the select. -/
def selectBlk (s : State B S) : List (State B S) :=
  match s.subBlkCh with
  | msg :: rest =>
    [{ s with pc := onBlkMsg msg, subBlkCh := rest, trace := s.trace ++ [Act.recvBlk msg] }]
  | [] => []

/-- Branch `case msg := <-subSidecarsCh` of the select. -/
def selectSidecars (s : State B S) : List (State B S) :=
  match s.subSidecarsCh with
  | msg :: rest =>
    [{ s with pc := onSidecarsMsg msg, subSidecarsCh := rest,
              trace := s.trace ++ [Act.recvSidecars msg] }]
  | [] => []

/-- The moves the goroutine running `ABCIMiddleware.start` can make from a state, one
per statement of `start`. A `select` with several ready cases can take any of them; a
send on a full channel has no move. -/
def loopSteps (s : State B S) : List (State B S) :=
  match s.pc with
  | PC.entry =>
    [{ s with pc := PC.blkSubscribed, blkFeed := s.blkFeed.Subscribe.2,
              blkSub := some s.blkFeed.Subscribe.1,
              trace := s.trace ++ [Act.subscribeBlk s.blkFeed.Subscribe.1] }]
  | PC.blkSubscribed =>
    [{ s with pc := PC.select, sidecarsFeed := s.sidecarsFeed.Subscribe.2,
              sidecarsSub := some s.sidecarsFeed.Subscribe.1,
              trace := s.trace ++ [Act.subscribeSidecars s.sidecarsFeed.Subscribe.1] }]
  | PC.select => selectCtxDone s ++ selectBlk s ++ selectSidecars s
  | PC.sendBlk msg =>
    if s.blkCh.length < chanCap then
      [{ s with pc := PC.select, blkCh := s.blkCh ++ [msg],
                trace := s.trace ++ [Act.putBlk msg] }]
    else []
  | PC.sendSidecars msg =>
    if s.sidecarsCh.length < chanCap then
      [{ s with pc := PC.select, sidecarsCh := s.sidecarsCh ++ [msg],
                trace := s.trace ++ [Act.putSidecars msg] }]
    else []
  | PC.deferSidecars =>
    match s.sidecarsSub with
    | some h =>
      [{ s with pc := PC.deferBlk, sidecarsFeed := s.sidecarsFeed.Unsubscribe h,
                trace := s.trace ++ [Act.unsubscribeSidecars h] }]
    | none => [{ s with pc := PC.deferBlk }]
  | PC.deferBlk =>
    match s.blkSub with
    | some h =>
      [{ s with pc := PC.returned, blkFeed := s.blkFeed.Unsubscribe h,
                trace := s.trace ++ [Act.unsubscribeBlk h] }]
    | none => [{ s with pc := PC.returned }]
  | PC.returned => []

/-- Moves of the rest of the node. -/
inductive EnvAct (B S : Type) where
  /-- the context given to `Start` is cancelled -/
  | cancel
  /-- the block feed writes an event into `subBlkCh` -/
  | feedBlk (e : Event B)
  /-- the sidecars feed writes an event into `subSidecarsCh` -/
  | feedSidecars (e : Event S)
  /-- a consumer receives from `am.blkCh` -/
  | takeBlk
  /-- a consumer receives from `am.sidecarsCh` -/
  | takeSidecars
  /-- another component subscribes to the block feed -/
  | otherSubscribeBlk
  /-- another component removes its own subscription `h` from the block feed -/
  | otherUnsubscribeBlk (h : Nat)
  /-- another component subscribes to the sidecars feed -/
  | otherSubscribeSidecars
  /-- another component removes its own subscription `h` from the sidecars feed -/
  | otherUnsubscribeSidecars (h : Nat)
deriving DecidableEq, Repr

/-- One move of the rest of the node, `none` when it is not enabled. A feed writes only
into a registered subscription whose channel has room. -/
def envStep (a : EnvAct B S) (s : State B S) : Option (State B S) :=
  match a with
  | EnvAct.cancel => some { s with ctxDone := true }
  | EnvAct.feedBlk e =>
    match s.blkSub with
    | some h =>
      if h ∈ s.blkFeed.subs ∧ s.subBlkCh.length < chanCap then
        some { s with subBlkCh := s.subBlkCh ++ [e], fedBlk := s.fedBlk ++ [e] }
      else none
    | none => none
  | EnvAct.feedSidecars e =>
    match s.sidecarsSub with
    | some h =>
      if h ∈ s.sidecarsFeed.subs ∧ s.subSidecarsCh.length < chanCap then
        some { s with subSidecarsCh := s.subSidecarsCh ++ [e],
                      fedSidecars := s.fedSidecars ++ [e] }
      else none
    | none => none
  | EnvAct.takeBlk =>
    match s.blkCh with
    | _ :: rest => some { s with blkCh := rest }
    | [] => none
  | EnvAct.takeSidecars =>
    match s.sidecarsCh with
    | _ :: rest => some { s with sidecarsCh := rest }
    | [] => none
  | EnvAct.otherSubscribeBlk => some { s with blkFeed := s.blkFeed.Subscribe.2 }
  | EnvAct.otherUnsubscribeBlk h =>
    if s.blkSub = some h then none else some { s with blkFeed := s.blkFeed.Unsubscribe h }
  | EnvAct.otherSubscribeSidecars =>
    some { s with sidecarsFeed := s.sidecarsFeed.Subscribe.2 }
  | EnvAct.otherUnsubscribeSidecars h =>
    if s.sidecarsSub = some h then none
    else some { s with sidecarsFeed := s.sidecarsFeed.Unsubscribe h }

/-- The states the system can be in, from any pair of feeds. -/
inductive Reachable : State B S → Prop where
  | init (blkFeed sidecarsFeed : FeedOf) : Reachable (State.init blkFeed sidecarsFeed)
  | loop {s t : State B S} : Reachable s → t ∈ loopSteps s → Reachable t
  | env {s t : State B S} (a : EnvAct B S) : Reachable s → envStep a s = some t → Reachable t

/-- The goroutine alone moves from the first state to the second in any number of
moves. -/
def LoopReach (s t : State B S) : Prop :=
  Relation.ReflTransGen (fun a b => b ∈ loopSteps a) s t

/-- The whole system, goroutine and rest of the node together, moves from the first
state to the second in any number of moves. -/
def SystemReach (s t : State B S) : Prop :=
  Relation.ReflTransGen (fun a b => b ∈ loopSteps a ∨ ∃ e, envStep e a = some b) s t

/-- The goroutine stands at a send whose delivery channel is full. -/
def blockedOnSend (s : State B S) : Bool :=
  match s.pc with
  | PC.sendBlk _ => decide (chanCap ≤ s.blkCh.length)
  | PC.sendSidecars _ => decide (chanCap ≤ s.sidecarsCh.length)
  | _ => false

/-- The block events the goroutine received, in order. -/
def recvsBlk : List (Act B S) → List (Event B)
  | [] => []
  | Act.recvBlk e :: rest => e :: recvsBlk rest
  | _ :: rest => recvsBlk rest

/-- The events the goroutine put on `am.blkCh`, in order. -/
def putsBlk : List (Act B S) → List (Event B)
  | [] => []
  | Act.putBlk e :: rest => e :: putsBlk rest
  | _ :: rest => putsBlk rest

/-- The sidecars events the goroutine received, in order. -/
def recvsSidecars : List (Act B S) → List (Event S)
  | [] => []
  | Act.recvSidecars e :: rest => e :: recvsSidecars rest
  | _ :: rest => recvsSidecars rest

/-- The events the goroutine put on `am.sidecarsCh`, in order. -/
def putsSidecars : List (Act B S) → List (Event S)
  | [] => []
  | Act.putSidecars e :: rest => e :: putsSidecars rest
  | _ :: rest => putsSidecars rest

/-- The event types the loop forwards from the block feed. -/
def acceptsBlk (t : EventType) : Bool :=
  t == EventType.BeaconBlockBuilt || t == EventType.BeaconBlockVerified

/-- The event types the loop forwards from the sidecars feed. -/
def acceptsSidecars (t : EventType) : Bool :=
  t == EventType.BlobSidecarsBuilt || t == EventType.BlobSidecarsVerified
    || t == EventType.BlobSidecarsProcessed

/-- The block event the goroutine holds at a send, if any. -/
def pendingBlk (pc : PC B S) : List (Event B) :=
  match pc with
  | PC.sendBlk msg => [msg]
  | _ => []

/-- The sidecars event the goroutine holds at a send, if any. -/
def pendingSidecars (pc : PC B S) : List (Event S) :=
  match pc with
  | PC.sendSidecars msg => [msg]
  | _ => []

/-- A move that receives or forwards an event. -/
def Act.isForwarding (a : Act B S) : Bool :=
  match a with
  | Act.recvBlk _ => true
  | Act.recvSidecars _ => true
  | Act.putBlk _ => true
  | Act.putSidecars _ => true
  | _ => false

/-- The moves made after the loop, up to a control point: the `return` and the deferred
calls that have already run, for the handles `hb` and `hs`. -/
def closing (pc : PC B S) (hb hs : Nat) : List (Act B S) :=
  match pc with
  | PC.deferSidecars => [Act.ctxDone]
  | PC.deferBlk => [Act.ctxDone, Act.unsubscribeSidecars hs]
  | PC.returned => [Act.ctxDone, Act.unsubscribeSidecars hs, Act.unsubscribeBlk hb]
  | _ => []

/-- The shape of the goroutine's history at each control point, with the handles it
holds and whether they are still registered. -/
def SubscriptionInv (s : State B S) : Prop :=
  (s.pc = PC.entry → s.trace = [] ∧ s.blkSub = none ∧ s.sidecarsSub = none) ∧
  (s.pc = PC.blkSubscribed →
    ∃ hb, s.trace = [Act.subscribeBlk hb] ∧ s.blkSub = some hb ∧ s.sidecarsSub = none ∧
      hb < s.blkFeed.next) ∧
  (s.pc ≠ PC.entry → s.pc ≠ PC.blkSubscribed →
    ∃ hb hs mid,
      s.trace = Act.subscribeBlk hb :: Act.subscribeSidecars hs :: (mid ++ closing s.pc hb hs) ∧
      (∀ a ∈ mid, Act.isForwarding a = true) ∧
      s.blkSub = some hb ∧ s.sidecarsSub = some hs ∧
      hb < s.blkFeed.next ∧ hs < s.sidecarsFeed.next ∧
      (s.pc = PC.deferBlk ∨ s.pc = PC.returned → hs ∉ s.sidecarsFeed.subs) ∧
      (s.pc = PC.returned → hb ∉ s.blkFeed.subs))

/-- The second registry comes from the first by registrations of new handles and
removals. -/
def FeedOf.Extends (f g : FeedOf) : Prop :=
  f.next ≤ g.next ∧ ∀ h, h < f.next → h ∈ g.subs → h ∈ f.subs

/-- What the loop has put on the delivery channels, against what it received and what
the feeds wrote: nothing is dropped, duplicated or reordered. -/
def ForwardInv (s : State B S) : Prop :=
  putsBlk s.trace ++ pendingBlk s.pc
      = (recvsBlk s.trace).filter (fun e => acceptsBlk e.type) ∧
  putsSidecars s.trace ++ pendingSidecars s.pc
      = (recvsSidecars s.trace).filter (fun e => acceptsSidecars e.type) ∧
  recvsBlk s.trace ++ s.subBlkCh = s.fedBlk ∧
  recvsSidecars s.trace ++ s.subSidecarsCh = s.fedSidecars ∧
  (∃ taken, putsBlk s.trace = taken ++ s.blkCh) ∧
  (∃ taken, putsSidecars s.trace = taken ++ s.sidecarsCh)

/-! ## Sample values -/

/-- A deposit message with distinct field contents. -/
def sampleMessage : DepositMessage :=
  { Pubkey := List.replicate 47 7 ++ [200],
    Credentials := 1 :: List.replicate 31 9,
    Amount := 32000000000 }

/-- The zero value of `DepositMessage`. -/
def zeroMessage : DepositMessage :=
  { Pubkey := List.replicate 48 0, Credentials := List.replicate 32 0, Amount := 0 }

/-- A BeaconBlockBuilt event. -/
def builtEvent : Event Nat := { type := EventType.BeaconBlockBuilt, data := 10 }

/-- A BeaconBlockVerified event. -/
def verifiedEvent : Event Nat := { type := EventType.BeaconBlockVerified, data := 11 }

/-- A BlobSidecarsBuilt event. -/
def sidecarsBuiltEvent : Event Nat := { type := EventType.BlobSidecarsBuilt, data := 20 }

/-- The loop just started, on two feeds without subscribers. -/
def run0 : State Nat Nat := State.init { next := 0, subs := [] } { next := 0, subs := [] }

/-- After `am.blkFeed.Subscribe(subBlkCh)`. -/
def run1 : State Nat Nat :=
  { run0 with pc := PC.blkSubscribed, blkFeed := { next := 1, subs := [0] },
              blkSub := some 0, trace := [Act.subscribeBlk 0] }

/-- After `am.sidecarsFeed.Subscribe(subSidecarsCh)`: at the select. -/
def run2 : State Nat Nat :=
  { run1 with pc := PC.select, sidecarsFeed := { next := 1, subs := [0] },
              sidecarsSub := some 0,
              trace := [Act.subscribeBlk 0, Act.subscribeSidecars 0] }

/-- The block feed delivered `builtEvent`. -/
def run3 : State Nat Nat :=
  { run2 with subBlkCh := [builtEvent], fedBlk := [builtEvent] }

/-- The loop received `builtEvent` and stands at `am.blkCh <- msg`. -/
def run4 : State Nat Nat :=
  { run3 with pc := PC.sendBlk builtEvent, subBlkCh := [],
              trace := [Act.subscribeBlk 0, Act.subscribeSidecars 0, Act.recvBlk builtEvent] }

/-- The loop put `builtEvent` on `am.blkCh`, which is now full. -/
def run5 : State Nat Nat :=
  { run4 with pc := PC.select, blkCh := [builtEvent],
              trace := [Act.subscribeBlk 0, Act.subscribeSidecars 0, Act.recvBlk builtEvent,
                        Act.putBlk builtEvent] }

/-- The block feed delivered `verifiedEvent` while `am.blkCh` is still full. -/
def run6 : State Nat Nat :=
  { run5 with subBlkCh := [verifiedEvent], fedBlk := [builtEvent, verifiedEvent] }

/-- The loop received `verifiedEvent` and stands at `am.blkCh <- msg`. -/
def run7 : State Nat Nat :=
  { run6 with pc := PC.sendBlk verifiedEvent, subBlkCh := [],
              trace := [Act.subscribeBlk 0, Act.subscribeSidecars 0, Act.recvBlk builtEvent,
                        Act.putBlk builtEvent, Act.recvBlk verifiedEvent] }

/-- The context is cancelled while the loop waits at the send on the full `am.blkCh`. -/
def blockedState : State Nat Nat := { run7 with ctxDone := true }

/-- The sidecars feed delivered `sidecarsBuiltEvent` to the loop at the select. -/
def sidecarsRun3 : State Nat Nat :=
  { run2 with subSidecarsCh := [sidecarsBuiltEvent], fedSidecars := [sidecarsBuiltEvent] }

/-- The loop received `sidecarsBuiltEvent` and stands at `am.sidecarsCh <- msg`. -/
def sidecarsRun4 : State Nat Nat :=
  { sidecarsRun3 with pc := PC.sendSidecars sidecarsBuiltEvent, subSidecarsCh := [],
                      trace := [Act.subscribeBlk 0, Act.subscribeSidecars 0,
                                Act.recvSidecars sidecarsBuiltEvent] }

/-- The context is cancelled while the loop is at the select. -/
def cancelRun3 : State Nat Nat := { run2 with ctxDone := true }

/-- The loop took `case <-ctx.Done()`. -/
def cancelRun4 : State Nat Nat :=
  { cancelRun3 with pc := PC.deferSidecars,
                    trace := [Act.subscribeBlk 0, Act.subscribeSidecars 0, Act.ctxDone] }

/-- The deferred `sidecarsSub.Unsubscribe()` ran. -/
def cancelRun5 : State Nat Nat :=
  { cancelRun4 with pc := PC.deferBlk, sidecarsFeed := { next := 1, subs := [] },
                    trace := [Act.subscribeBlk 0, Act.subscribeSidecars 0, Act.ctxDone,
                              Act.unsubscribeSidecars 0] }

/-- The deferred `blkSub.Unsubscribe()` ran: `start` has returned. -/
def cancelRun6 : State Nat Nat :=
  { cancelRun5 with pc := PC.returned, blkFeed := { next := 1, subs := [] },
                    trace := [Act.subscribeBlk 0, Act.subscribeSidecars 0, Act.ctxDone,
                              Act.unsubscribeSidecars 0, Act.unsubscribeBlk 0] }

/-- The context is cancelled while `builtEvent`, delivered by the block feed, is still
buffered in `subBlkCh` and the loop is at the select. -/
def dropRun4 : State Nat Nat := { run3 with ctxDone := true }

/-- The select took `case <-ctx.Done()` although `subBlkCh` was ready too. -/
def dropRun5 : State Nat Nat :=
  { dropRun4 with pc := PC.deferSidecars,
                  trace := [Act.subscribeBlk 0, Act.subscribeSidecars 0, Act.ctxDone] }

/-- The deferred `sidecarsSub.Unsubscribe()` ran. -/
def dropRun6 : State Nat Nat :=
  { dropRun5 with pc := PC.deferBlk, sidecarsFeed := { next := 1, subs := [] },
                  trace := [Act.subscribeBlk 0, Act.subscribeSidecars 0, Act.ctxDone,
                            Act.unsubscribeSidecars 0] }

/-- The deferred `blkSub.Unsubscribe()` ran: `start` has returned with `builtEvent`
still in `subBlkCh`. -/
def droppedState : State Nat Nat :=
  { dropRun6 with pc := PC.returned, blkFeed := { next := 1, subs := [] },
                  trace := [Act.subscribeBlk 0, Act.subscribeSidecars 0, Act.ctxDone,
                            Act.unsubscribeSidecars 0, Act.unsubscribeBlk 0] }

end BeaconKit

namespace BeaconKit

theorem lor_mul_pow_eq_add (a b k : Nat) (ha : a < 2 ^ k) :
    a ||| (b * 2 ^ k) = a + b * 2 ^ k := by
  rw [Nat.lor_comm, Nat.mul_comm b, ← Nat.mul_add_lt_is_or ha, Nat.add_comm]

theorem uint64_le_roundtrip (v : Nat) (hv : v < 2 ^ 64) :
    UnmarshallUint64 (putUint64LE v) = v := by
  simp only [UnmarshallUint64, putUint64LE, toUint64, toByte, List.getD_cons_zero,
    List.getD_cons_succ, Nat.shiftRight_eq_div_pow, Nat.shiftLeft_eq]
  have e0 : v % 256 % 2 ^ 64 = v % 256 := Nat.mod_eq_of_lt (by omega)
  have h1 : v / 2 ^ 8 % 256 % 2 ^ 64 * 2 ^ 8 % 2 ^ 64 = (v / 2 ^ 8 % 256) * 2 ^ 8 := by omega
  have h2 : v / 2 ^ 16 % 256 % 2 ^ 64 * 2 ^ 16 % 2 ^ 64 = (v / 2 ^ 16 % 256) * 2 ^ 16 := by omega
  have h3 : v / 2 ^ 24 % 256 % 2 ^ 64 * 2 ^ 24 % 2 ^ 64 = (v / 2 ^ 24 % 256) * 2 ^ 24 := by omega
  have h4 : v / 2 ^ 32 % 256 % 2 ^ 64 * 2 ^ 32 % 2 ^ 64 = (v / 2 ^ 32 % 256) * 2 ^ 32 := by omega
  have h5 : v / 2 ^ 40 % 256 % 2 ^ 64 * 2 ^ 40 % 2 ^ 64 = (v / 2 ^ 40 % 256) * 2 ^ 40 := by omega
  have h6 : v / 2 ^ 48 % 256 % 2 ^ 64 * 2 ^ 48 % 2 ^ 64 = (v / 2 ^ 48 % 256) * 2 ^ 48 := by omega
  have h7 : v / 2 ^ 56 % 256 % 2 ^ 64 * 2 ^ 56 % 2 ^ 64 = (v / 2 ^ 56 % 256) * 2 ^ 56 := by omega
  rw [e0, h1, h2, h3, h4, h5, h6, h7]
  rw [lor_mul_pow_eq_add _ _ 8 (by omega)]
  rw [lor_mul_pow_eq_add _ _ 16 (by omega)]
  rw [lor_mul_pow_eq_add _ _ 24 (by omega)]
  rw [lor_mul_pow_eq_add _ _ 32 (by omega)]
  rw [lor_mul_pow_eq_add _ _ 40 (by omega)]
  rw [lor_mul_pow_eq_add _ _ 48 (by omega)]
  rw [lor_mul_pow_eq_add _ _ 56 (by omega)]
  omega

theorem goSlice_length (buf : List Nat) (lo hi : Nat) (h : hi ≤ buf.length) :
    (goSlice buf lo hi).length = hi - lo := by
  simp only [goSlice, List.length_take, List.length_drop]
  omega

theorem goCopy_full (dst src : List Nat) (h : dst.length = src.length) :
    goCopy dst src = src := by
  simp [goCopy, h]

theorem drop_append_of_length (a b : List Nat) (n : Nat) (h : a.length = n) :
    (a ++ b).drop n = b := by
  subst h; simp

theorem take_append_of_length (a b : List Nat) (n : Nat) (h : a.length = n) :
    (a ++ b).take n = a := by
  subst h; simp

theorem putUint64LE_length (v : Nat) : (putUint64LE v).length = 8 := rfl

theorem UnmarshalSSZ_of_size (d : DepositMessage) (b : List Nat) (hb : b.length = 88)
    (hp : d.Pubkey.length = 48) (hc : d.Credentials.length = 32) :
    d.UnmarshalSSZ b =
      ({ Pubkey := goSlice b 0 48, Credentials := goSlice b 48 80,
         Amount := UnmarshallUint64 (goSlice b 80 88) }, none) := by
  have hsz : toUint64 b.length = 88 := by simp [toUint64, hb]
  have h1 : goCopy d.Pubkey (goSlice b 0 48) = goSlice b 0 48 :=
    goCopy_full _ _ (by rw [goSlice_length _ _ _ (by omega), hp])
  have h2 : goCopy d.Credentials (goSlice b 48 80) = goSlice b 48 80 :=
    goCopy_full _ _ (by rw [goSlice_length _ _ _ (by omega), hc])
  simp [DepositMessage.UnmarshalSSZ, hsz, h1, h2]

/-- C1. Round trip: for every well-formed message `m` (48-byte Pubkey, 32-byte
Credentials, uint64 Amount) and every well-formed receiver `d`, `MarshalSSZTo` on the
empty buffer returns no error, and `UnmarshalSSZ` of its output into `d` returns no
error and leaves the receiver equal to `m`. -/
theorem C1_roundtrip (m d : DepositMessage) (hm : m.WellFormed) (hd : d.WellFormed) :
    (m.MarshalSSZTo []).2 = none ∧ d.UnmarshalSSZ (m.MarshalSSZTo []).1 = (m, none) := by
  obtain ⟨hp, hc, ha, -, -⟩ := hm
  obtain ⟨hdp, hdc, -, -, -⟩ := hd
  refine ⟨rfl, ?_⟩
  have hlen : (m.MarshalSSZTo []).1.length = 88 := by
    simp [DepositMessage.MarshalSSZTo, MarshalUint64, goAppend, putUint64LE_length, hp, hc]
  rw [UnmarshalSSZ_of_size d _ hlen hdp hdc]
  have e : (m.MarshalSSZTo []).1
      = m.Pubkey ++ (m.Credentials ++ putUint64LE (toUint64 (toUint64 m.Amount))) := by
    simp [DepositMessage.MarshalSSZTo, MarshalUint64, goAppend]
  have ea : toUint64 (toUint64 m.Amount) = m.Amount := by
    simp only [toUint64]; omega
  have s1 : goSlice (m.MarshalSSZTo []).1 0 48 = m.Pubkey := by
    rw [e, goSlice, List.drop_zero]
    exact take_append_of_length _ _ _ hp
  have s2 : goSlice (m.MarshalSSZTo []).1 48 80 = m.Credentials := by
    rw [e, goSlice, drop_append_of_length _ _ _ hp]
    exact take_append_of_length _ _ _ hc
  have s3 : goSlice (m.MarshalSSZTo []).1 80 88 = putUint64LE m.Amount := by
    rw [e, goSlice, ← List.append_assoc, ea]
    have h80 : (m.Pubkey ++ m.Credentials).length = 80 := by simp [hp, hc]
    rw [drop_append_of_length _ _ _ h80]
    exact List.take_of_length_le (by simp [putUint64LE_length])
  rw [s1, s2, s3, uint64_le_roundtrip _ ha]

/-- Witness of C1 at `sampleMessage` decoded into the zero message. -/
theorem C1_roundtrip_witness :
    sampleMessage.WellFormed ∧ zeroMessage.WellFormed ∧
      (sampleMessage.MarshalSSZTo []).2 = none ∧
      zeroMessage.UnmarshalSSZ (sampleMessage.MarshalSSZTo []).1 = (sampleMessage, none) :=
  ⟨by decide, by decide, C1_roundtrip sampleMessage zeroMessage (by decide) (by decide)⟩

/-- C2. Size error: for every buffer `b` whose length is not 88 (a Go slice length
fits a uint64) and every receiver `d`, `UnmarshalSSZ` returns `ssz.ErrSize` and the
receiver keeps its Pubkey, Credentials and Amount. -/
theorem C2_size_error (b : List Nat) (d : DepositMessage) (hlen : b.length < 2 ^ 64)
    (hb : b.length ≠ 88) :
    (d.UnmarshalSSZ b).2 = some SszError.ErrSize ∧
      (d.UnmarshalSSZ b).1.Pubkey = d.Pubkey ∧
      (d.UnmarshalSSZ b).1.Credentials = d.Credentials ∧
      (d.UnmarshalSSZ b).1.Amount = d.Amount := by
  have hsz : toUint64 b.length ≠ 88 := by
    simp only [toUint64]; omega
  simp [DepositMessage.UnmarshalSSZ, hsz]

/-- Witness of C2 at an 87-byte buffer and the receiver `sampleMessage`. -/
theorem C2_size_error_witness :
    (List.replicate 87 1).length ≠ 88 ∧
      (sampleMessage.UnmarshalSSZ (List.replicate 87 1)).2 = some SszError.ErrSize ∧
      (sampleMessage.UnmarshalSSZ (List.replicate 87 1)).1.Pubkey = sampleMessage.Pubkey ∧
      (sampleMessage.UnmarshalSSZ (List.replicate 87 1)).1.Credentials
        = sampleMessage.Credentials ∧
      (sampleMessage.UnmarshalSSZ (List.replicate 87 1)).1.Amount = sampleMessage.Amount :=
  ⟨by decide, C2_size_error (List.replicate 87 1) sampleMessage (by decide) (by decide)⟩

/-- C3. Decoding an 88-byte buffer: for every buffer `b` of length 88 and all
well-formed receivers `d` and `d2`, `UnmarshalSSZ` returns no error, the receiver ends
with Pubkey = b[0:48], Credentials = b[48:80] and Amount = the uint64 read from
b[80:88], and the result is the same whatever the receiver held before. -/
theorem C3_decode_total (b : List Nat) (d d2 : DepositMessage) (hb : b.length = 88)
    (hd : d.WellFormed) (hd2 : d2.WellFormed) :
    (d.UnmarshalSSZ b).2 = none ∧
      (d.UnmarshalSSZ b).1.Pubkey = (b.drop 0).take 48 ∧
      (d.UnmarshalSSZ b).1.Credentials = (b.drop 48).take 32 ∧
      (d.UnmarshalSSZ b).1.Amount = UnmarshallUint64 ((b.drop 80).take 8) ∧
      d.UnmarshalSSZ b = d2.UnmarshalSSZ b := by
  rw [UnmarshalSSZ_of_size d b hb hd.1 hd.2.1, UnmarshalSSZ_of_size d2 b hb hd2.1 hd2.2.1]
  simp [goSlice]

/-- Witness of C3 at the encoding of `sampleMessage` with receivers `zeroMessage` and
`sampleMessage`. -/
theorem C3_decode_total_witness :
    ((sampleMessage.MarshalSSZTo []).1).length = 88 ∧
    (zeroMessage.UnmarshalSSZ (sampleMessage.MarshalSSZTo []).1).2 = none ∧
      (zeroMessage.UnmarshalSSZ (sampleMessage.MarshalSSZTo []).1).1.Pubkey
        = (((sampleMessage.MarshalSSZTo []).1).drop 0).take 48 ∧
      (zeroMessage.UnmarshalSSZ (sampleMessage.MarshalSSZTo []).1).1.Credentials
        = (((sampleMessage.MarshalSSZTo []).1).drop 48).take 32 ∧
      (zeroMessage.UnmarshalSSZ (sampleMessage.MarshalSSZTo []).1).1.Amount
        = UnmarshallUint64 ((((sampleMessage.MarshalSSZTo []).1).drop 80).take 8) ∧
      zeroMessage.UnmarshalSSZ (sampleMessage.MarshalSSZTo []).1
        = sampleMessage.UnmarshalSSZ (sampleMessage.MarshalSSZTo []).1 :=
  ⟨by decide, C3_decode_total (sampleMessage.MarshalSSZTo []).1 zeroMessage sampleMessage
    (by decide) (by decide) (by decide)⟩

/-- C4. Encoded length: for every well-formed message `m` and every destination
buffer `buf`, `MarshalSSZTo` returns no error and a slice of length
`len buf + SizeSSZ()`, with `SizeSSZ() = 88`; any two well-formed messages encode to
the same length. -/
theorem C4_encoded_length (m m2 : DepositMessage) (buf : List Nat) (hm : m.WellFormed)
    (hm2 : m2.WellFormed) :
    (m.MarshalSSZTo buf).2 = none ∧
      (m.MarshalSSZTo buf).1.length = buf.length + m.SizeSSZ ∧
      m.SizeSSZ = 88 ∧
      (m.MarshalSSZTo buf).1.length = (m2.MarshalSSZTo buf).1.length := by
  obtain ⟨hp, hc, -, -, -⟩ := hm
  obtain ⟨hp2, hc2, -, -, -⟩ := hm2
  refine ⟨rfl, ?_, rfl, ?_⟩ <;>
    simp only [DepositMessage.MarshalSSZTo, MarshalUint64, goAppend, List.length_append,
      putUint64LE_length, DepositMessage.SizeSSZ, hp, hc, hp2, hc2]

/-- Witness of C4 at `sampleMessage`, `zeroMessage` and a three-byte buffer. -/
theorem C4_encoded_length_witness :
    sampleMessage.WellFormed ∧ zeroMessage.WellFormed ∧
      (sampleMessage.MarshalSSZTo [1, 2, 3]).2 = none ∧
      (sampleMessage.MarshalSSZTo [1, 2, 3]).1.length = [1, 2, 3].length + sampleMessage.SizeSSZ ∧
      sampleMessage.SizeSSZ = 88 ∧
      (sampleMessage.MarshalSSZTo [1, 2, 3]).1.length
        = (zeroMessage.MarshalSSZTo [1, 2, 3]).1.length :=
  ⟨by decide, by decide,
    C4_encoded_length sampleMessage zeroMessage [1, 2, 3] (by decide) (by decide)⟩

/-- C5. Hashing walk: for every message `m`, `HashTreeRootWith` asks the hasher for its
index, puts the Pubkey bytes, then the Credentials bytes, then Amount as a uint64, then
merkleizes from the index it was given, and nothing else (shown on the recording
hasher); for every hasher it returns the nil error, and its result is the same for any
message with the same three field values. -/
theorem C5_hash_walk (m : DepositMessage) :
    (∀ (idx : Nat) (log : List HashCall),
      m.HashTreeRootWith (recordingWalker idx) log =
        (log ++ [HashCall.index, HashCall.putBytes m.Pubkey,
                 HashCall.putBytes m.Credentials, HashCall.putUint64 (toUint64 m.Amount),
                 HashCall.merkleize idx], none)) ∧
    (∀ (H : Type) (hh : HashWalker H) (h : H),
      (m.HashTreeRootWith hh h).2 = none ∧
      (m.HashTreeRootWith hh h).1 =
        hh.Merkleize (hh.PutUint64 (hh.PutBytes (hh.PutBytes (hh.Index h).2 m.Pubkey)
          m.Credentials) (toUint64 m.Amount)) (hh.Index h).1 ∧
      ∀ m2 : DepositMessage, m2.Pubkey = m.Pubkey → m2.Credentials = m.Credentials →
        m2.Amount = m.Amount → m2.HashTreeRootWith hh h = m.HashTreeRootWith hh h) := by
  refine ⟨fun idx log => ?_, fun H hh h => ⟨rfl, rfl, ?_⟩⟩
  · simp [DepositMessage.HashTreeRootWith, recordingWalker]
  · intro m2 h1 h2 h3
    simp [DepositMessage.HashTreeRootWith, h1, h2, h3]

/-! ## The forwarding loop -/

section Loop

variable {B S : Type}

theorem mem_loopSteps_select (s t : State B S) (hpc : s.pc = PC.select)
    (ht : t ∈ loopSteps s) :
    (s.ctxDone = true ∧
        t = { s with pc := PC.deferSidecars, trace := s.trace ++ [Act.ctxDone] }) ∨
    (∃ msg rest, s.subBlkCh = msg :: rest ∧
        t = { s with pc := onBlkMsg msg, subBlkCh := rest,
                     trace := s.trace ++ [Act.recvBlk msg] }) ∨
    (∃ msg rest, s.subSidecarsCh = msg :: rest ∧
        t = { s with pc := onSidecarsMsg msg, subSidecarsCh := rest,
                     trace := s.trace ++ [Act.recvSidecars msg] }) := by
  simp only [loopSteps, hpc, List.mem_append] at ht
  rcases ht with (ht | ht) | ht
  · left
    unfold selectCtxDone at ht
    split at ht
    · next h => exact ⟨h, by simpa using ht⟩
    · simp at ht
  · right; left
    unfold selectBlk at ht
    split at ht
    · next msg rest h => exact ⟨msg, rest, h, by simpa using ht⟩
    · simp at ht
  · right; right
    unfold selectSidecars at ht
    split at ht
    · next msg rest h => exact ⟨msg, rest, h, by simpa using ht⟩
    · simp at ht

theorem onBlkMsg_accept (msg : Event B)
    (h : msg.type = EventType.BeaconBlockBuilt ∨ msg.type = EventType.BeaconBlockVerified) :
    (onBlkMsg msg : PC B S) = PC.sendBlk msg := by
  rcases h with h | h <;> simp [onBlkMsg, h]

theorem onBlkMsg_reject (msg : Event B)
    (h : ¬ (msg.type = EventType.BeaconBlockBuilt ∨ msg.type = EventType.BeaconBlockVerified)) :
    (onBlkMsg msg : PC B S) = PC.select := by
  unfold onBlkMsg
  split <;> simp_all

theorem onSidecarsMsg_accept (msg : Event S)
    (h : msg.type = EventType.BlobSidecarsBuilt ∨ msg.type = EventType.BlobSidecarsVerified
      ∨ msg.type = EventType.BlobSidecarsProcessed) :
    (onSidecarsMsg msg : PC B S) = PC.sendSidecars msg := by
  rcases h with h | h | h <;> simp [onSidecarsMsg, h]

theorem onSidecarsMsg_reject (msg : Event S)
    (h : ¬ (msg.type = EventType.BlobSidecarsBuilt ∨ msg.type = EventType.BlobSidecarsVerified
      ∨ msg.type = EventType.BlobSidecarsProcessed)) :
    (onSidecarsMsg msg : PC B S) = PC.select := by
  unfold onSidecarsMsg
  split <;> simp_all

/-- Every move of the goroutine, by the control point it leaves. -/
theorem loop_step_cases (s t : State B S) (ht : t ∈ loopSteps s) :
    (s.pc = PC.entry ∧
        t = { s with pc := PC.blkSubscribed, blkFeed := s.blkFeed.Subscribe.2,
                     blkSub := some s.blkFeed.Subscribe.1,
                     trace := s.trace ++ [Act.subscribeBlk s.blkFeed.Subscribe.1] }) ∨
    (s.pc = PC.blkSubscribed ∧
        t = { s with pc := PC.select, sidecarsFeed := s.sidecarsFeed.Subscribe.2,
                     sidecarsSub := some s.sidecarsFeed.Subscribe.1,
                     trace := s.trace ++ [Act.subscribeSidecars s.sidecarsFeed.Subscribe.1] }) ∨
    (s.pc = PC.select ∧ s.ctxDone = true ∧
        t = { s with pc := PC.deferSidecars, trace := s.trace ++ [Act.ctxDone] }) ∨
    (s.pc = PC.select ∧ ∃ msg rest, s.subBlkCh = msg :: rest ∧
        t = { s with pc := onBlkMsg msg, subBlkCh := rest,
                     trace := s.trace ++ [Act.recvBlk msg] }) ∨
    (s.pc = PC.select ∧ ∃ msg rest, s.subSidecarsCh = msg :: rest ∧
        t = { s with pc := onSidecarsMsg msg, subSidecarsCh := rest,
                     trace := s.trace ++ [Act.recvSidecars msg] }) ∨
    (∃ msg, s.pc = PC.sendBlk msg ∧ s.blkCh.length < chanCap ∧
        t = { s with pc := PC.select, blkCh := s.blkCh ++ [msg],
                     trace := s.trace ++ [Act.putBlk msg] }) ∨
    (∃ msg, s.pc = PC.sendSidecars msg ∧ s.sidecarsCh.length < chanCap ∧
        t = { s with pc := PC.select, sidecarsCh := s.sidecarsCh ++ [msg],
                     trace := s.trace ++ [Act.putSidecars msg] }) ∨
    (s.pc = PC.deferSidecars ∧ ∃ h, s.sidecarsSub = some h ∧
        t = { s with pc := PC.deferBlk, sidecarsFeed := s.sidecarsFeed.Unsubscribe h,
                     trace := s.trace ++ [Act.unsubscribeSidecars h] }) ∨
    (s.pc = PC.deferSidecars ∧ s.sidecarsSub = none ∧ t = { s with pc := PC.deferBlk }) ∨
    (s.pc = PC.deferBlk ∧ ∃ h, s.blkSub = some h ∧
        t = { s with pc := PC.returned, blkFeed := s.blkFeed.Unsubscribe h,
                     trace := s.trace ++ [Act.unsubscribeBlk h] }) ∨
    (s.pc = PC.deferBlk ∧ s.blkSub = none ∧ t = { s with pc := PC.returned }) := by
  cases hpc : s.pc with
  | entry =>
    simp only [loopSteps, hpc, List.mem_singleton] at ht
    exact Or.inl ⟨rfl, ht⟩
  | blkSubscribed =>
    simp only [loopSteps, hpc, List.mem_singleton] at ht
    exact Or.inr (Or.inl ⟨rfl, ht⟩)
  | select =>
    rcases mem_loopSteps_select s t hpc ht with h | h | h
    · exact Or.inr (Or.inr (Or.inl ⟨rfl, h⟩))
    · exact Or.inr (Or.inr (Or.inr (Or.inl ⟨rfl, h⟩)))
    · exact Or.inr (Or.inr (Or.inr (Or.inr (Or.inl ⟨rfl, h⟩))))
  | sendBlk msg =>
    simp only [loopSteps, hpc] at ht
    split at ht
    · next h =>
      exact Or.inr (Or.inr (Or.inr (Or.inr (Or.inr (Or.inl
        ⟨msg, rfl, h, by simpa using ht⟩)))))
    · simp at ht
  | sendSidecars msg =>
    simp only [loopSteps, hpc] at ht
    split at ht
    · next h =>
      exact Or.inr (Or.inr (Or.inr (Or.inr (Or.inr (Or.inr (Or.inl
        ⟨msg, rfl, h, by simpa using ht⟩))))))
    · simp at ht
  | deferSidecars =>
    simp only [loopSteps, hpc] at ht
    split at ht
    · next h hs =>
      exact Or.inr (Or.inr (Or.inr (Or.inr (Or.inr (Or.inr (Or.inr (Or.inl
        ⟨rfl, h, hs, by simpa using ht⟩)))))))
    · next hs =>
      exact Or.inr (Or.inr (Or.inr (Or.inr (Or.inr (Or.inr (Or.inr (Or.inr (Or.inl
        ⟨rfl, hs, by simpa using ht⟩))))))))
  | deferBlk =>
    simp only [loopSteps, hpc] at ht
    split at ht
    · next h hs =>
      exact Or.inr (Or.inr (Or.inr (Or.inr (Or.inr (Or.inr (Or.inr (Or.inr (Or.inr (Or.inl
        ⟨rfl, h, hs, by simpa using ht⟩)))))))))
    · next hs =>
      exact Or.inr (Or.inr (Or.inr (Or.inr (Or.inr (Or.inr (Or.inr (Or.inr (Or.inr (Or.inr
        ⟨rfl, hs, by simpa using ht⟩)))))))))
  | returned =>
    simp [loopSteps, hpc] at ht

/-- C6. Block-feed routing: whenever the goroutine receives an event `msg` from its
block-feed subscription, it does so at the select, taking the oldest event of
`subBlkCh`; it goes on to the send `am.blkCh <- msg` if and only if the type of `msg`
is BeaconBlockBuilt or BeaconBlockVerified, and otherwise returns to the select
holding nothing (the event is discarded); the receive changes neither delivery
channel. From the send, the only move appends `msg` to `am.blkCh`, leaves
`am.sidecarsCh` alone and is enabled as soon as `am.blkCh` has room; and every move
that changes `am.sidecarsCh` is the send of an event held at `am.sidecarsCh <- msg`,
and every put on `am.blkCh` comes from the send `am.blkCh <- msg`. -/
theorem C6_block_feed_routing (s t : State B S) (msg : Event B)
    (hstep : t ∈ loopSteps s) (hrecv : t.trace = s.trace ++ [Act.recvBlk msg]) :
    s.pc = PC.select ∧ s.subBlkCh = msg :: t.subBlkCh ∧
    (t.pc = PC.sendBlk msg ↔
      (msg.type = EventType.BeaconBlockBuilt ∨ msg.type = EventType.BeaconBlockVerified)) ∧
    (¬ (msg.type = EventType.BeaconBlockBuilt ∨ msg.type = EventType.BeaconBlockVerified) →
      t.pc = PC.select) ∧
    t.blkCh = s.blkCh ∧ t.sidecarsCh = s.sidecarsCh ∧
    (∀ u v : State B S, u.pc = PC.sendBlk msg → v ∈ loopSteps u →
      v.pc = PC.select ∧ v.blkCh = u.blkCh ++ [msg] ∧ v.sidecarsCh = u.sidecarsCh ∧
        v.trace = u.trace ++ [Act.putBlk msg]) ∧
    (∀ u : State B S, u.pc = PC.sendBlk msg → u.blkCh.length < chanCap →
      loopSteps u ≠ []) ∧
    (∀ u v : State B S, v ∈ loopSteps u → v.sidecarsCh ≠ u.sidecarsCh →
      ∃ e : Event S, u.pc = PC.sendSidecars e ∧ v.sidecarsCh = u.sidecarsCh ++ [e]) ∧
    (∀ (u v : State B S) (e : Event B), v ∈ loopSteps u →
      v.trace = u.trace ++ [Act.putBlk e] → u.pc = PC.sendBlk e) := by
  have key : s.pc = PC.select ∧ s.subBlkCh = msg :: t.subBlkCh ∧ t.pc = onBlkMsg msg ∧
      t.blkCh = s.blkCh ∧ t.sidecarsCh = s.sidecarsCh := by
    rcases loop_step_cases s t hstep with ⟨-, rfl⟩ | ⟨-, rfl⟩ | ⟨-, -, rfl⟩ |
      ⟨hpc, m, rest, hch, rfl⟩ | ⟨-, m, rest, -, rfl⟩ | ⟨m, -, -, rfl⟩ | ⟨m, -, -, rfl⟩ |
      ⟨-, h, -, rfl⟩ | ⟨-, -, rfl⟩ | ⟨-, h, -, rfl⟩ | ⟨-, -, rfl⟩ <;> simp at hrecv
    subst hrecv
    exact ⟨hpc, hch, rfl, rfl, rfl⟩
  obtain ⟨hpc, hch, htpc, hb, hsc⟩ := key
  refine ⟨hpc, hch, ?_, ?_, hb, hsc, ?_, ?_, ?_, ?_⟩
  · constructor
    · intro h
      by_contra hn
      rw [htpc, onBlkMsg_reject msg hn] at h
      cases h
    · intro h
      rw [htpc, onBlkMsg_accept msg h]
  · intro hn
    rw [htpc, onBlkMsg_reject msg hn]
  · intro u v hu hv
    rcases loop_step_cases u v hv with ⟨h, -⟩ | ⟨h, -⟩ | ⟨h, -⟩ | ⟨h, -⟩ | ⟨h, -⟩ |
      ⟨m, h, -, rfl⟩ | ⟨m, h, -⟩ | ⟨h, -⟩ | ⟨h, -⟩ | ⟨h, -⟩ | ⟨h, -⟩ <;>
      rw [hu] at h <;> cases h
    exact ⟨rfl, rfl, rfl, rfl⟩
  · intro u hu hroom
    simp [loopSteps, hu, hroom]
  · intro u v hv hne
    rcases loop_step_cases u v hv with ⟨-, rfl⟩ | ⟨-, rfl⟩ | ⟨-, -, rfl⟩ |
      ⟨-, m, rest, -, rfl⟩ | ⟨-, m, rest, -, rfl⟩ | ⟨m, -, -, rfl⟩ | ⟨m, h, -, rfl⟩ |
      ⟨-, h, -, rfl⟩ | ⟨-, -, rfl⟩ | ⟨-, h, -, rfl⟩ | ⟨-, -, rfl⟩ <;> simp at hne
    exact ⟨m, h, rfl⟩
  · intro u v e hv htr
    rcases loop_step_cases u v hv with ⟨-, rfl⟩ | ⟨-, rfl⟩ | ⟨-, -, rfl⟩ |
      ⟨-, m, rest, -, rfl⟩ | ⟨-, m, rest, -, rfl⟩ | ⟨m, h, -, rfl⟩ | ⟨m, -, -, rfl⟩ |
      ⟨-, h, -, rfl⟩ | ⟨-, -, rfl⟩ | ⟨-, h, -, rfl⟩ | ⟨-, -, rfl⟩ <;> simp at htr
    subst htr
    exact h

/-- Witness of C6: the loop receives `builtEvent` from the block feed. -/
theorem C6_block_feed_routing_witness :
    run4 ∈ loopSteps run3 ∧ run4.trace = run3.trace ++ [Act.recvBlk builtEvent] ∧
      run4.pc = PC.sendBlk builtEvent ∧ run4.blkCh = run3.blkCh ∧
      run4.sidecarsCh = run3.sidecarsCh :=
  have h := C6_block_feed_routing run3 run4 builtEvent (by decide) (by decide)
  ⟨by decide, by decide, h.2.2.1.mpr (Or.inl rfl), h.2.2.2.2.1, h.2.2.2.2.2.1⟩

/-- C7. Sidecars-feed routing: whenever the goroutine receives an event `msg` from its
sidecars-feed subscription, it does so at the select, taking the oldest event of
`subSidecarsCh`; it goes on to the send `am.sidecarsCh <- msg` if and only if the type
of `msg` is BlobSidecarsBuilt, BlobSidecarsVerified or BlobSidecarsProcessed, and
otherwise returns to the select holding nothing (the event is discarded); the receive
changes neither delivery channel. From the send, the only move appends `msg` to
`am.sidecarsCh`, leaves `am.blkCh` alone and is enabled as soon as `am.sidecarsCh` has
room; and every move that changes `am.blkCh` is the send of an event held at
`am.blkCh <- msg`, and every put on `am.sidecarsCh` comes from the send
`am.sidecarsCh <- msg`. -/
theorem C7_sidecars_feed_routing (s t : State B S) (msg : Event S)
    (hstep : t ∈ loopSteps s) (hrecv : t.trace = s.trace ++ [Act.recvSidecars msg]) :
    s.pc = PC.select ∧ s.subSidecarsCh = msg :: t.subSidecarsCh ∧
    (t.pc = PC.sendSidecars msg ↔
      (msg.type = EventType.BlobSidecarsBuilt ∨ msg.type = EventType.BlobSidecarsVerified
        ∨ msg.type = EventType.BlobSidecarsProcessed)) ∧
    (¬ (msg.type = EventType.BlobSidecarsBuilt ∨ msg.type = EventType.BlobSidecarsVerified
        ∨ msg.type = EventType.BlobSidecarsProcessed) → t.pc = PC.select) ∧
    t.blkCh = s.blkCh ∧ t.sidecarsCh = s.sidecarsCh ∧
    (∀ u v : State B S, u.pc = PC.sendSidecars msg → v ∈ loopSteps u →
      v.pc = PC.select ∧ v.sidecarsCh = u.sidecarsCh ++ [msg] ∧ v.blkCh = u.blkCh ∧
        v.trace = u.trace ++ [Act.putSidecars msg]) ∧
    (∀ u : State B S, u.pc = PC.sendSidecars msg → u.sidecarsCh.length < chanCap →
      loopSteps u ≠ []) ∧
    (∀ u v : State B S, v ∈ loopSteps u → v.blkCh ≠ u.blkCh →
      ∃ e : Event B, u.pc = PC.sendBlk e ∧ v.blkCh = u.blkCh ++ [e]) ∧
    (∀ (u v : State B S) (e : Event S), v ∈ loopSteps u →
      v.trace = u.trace ++ [Act.putSidecars e] → u.pc = PC.sendSidecars e) := by
  have key : s.pc = PC.select ∧ s.subSidecarsCh = msg :: t.subSidecarsCh ∧
      t.pc = onSidecarsMsg msg ∧ t.blkCh = s.blkCh ∧ t.sidecarsCh = s.sidecarsCh := by
    rcases loop_step_cases s t hstep with ⟨-, rfl⟩ | ⟨-, rfl⟩ | ⟨-, -, rfl⟩ |
      ⟨-, m, rest, -, rfl⟩ | ⟨hpc, m, rest, hch, rfl⟩ | ⟨m, -, -, rfl⟩ | ⟨m, -, -, rfl⟩ |
      ⟨-, h, -, rfl⟩ | ⟨-, -, rfl⟩ | ⟨-, h, -, rfl⟩ | ⟨-, -, rfl⟩ <;> simp at hrecv
    subst hrecv
    exact ⟨hpc, hch, rfl, rfl, rfl⟩
  obtain ⟨hpc, hch, htpc, hb, hsc⟩ := key
  refine ⟨hpc, hch, ?_, ?_, hb, hsc, ?_, ?_, ?_, ?_⟩
  · constructor
    · intro h
      by_contra hn
      rw [htpc, onSidecarsMsg_reject msg hn] at h
      cases h
    · intro h
      rw [htpc, onSidecarsMsg_accept msg h]
  · intro hn
    rw [htpc, onSidecarsMsg_reject msg hn]
  · intro u v hu hv
    rcases loop_step_cases u v hv with ⟨h, -⟩ | ⟨h, -⟩ | ⟨h, -⟩ | ⟨h, -⟩ | ⟨h, -⟩ |
      ⟨m, h, -⟩ | ⟨m, h, -, rfl⟩ | ⟨h, -⟩ | ⟨h, -⟩ | ⟨h, -⟩ | ⟨h, -⟩ <;>
      rw [hu] at h <;> cases h
    exact ⟨rfl, rfl, rfl, rfl⟩
  · intro u hu hroom
    simp [loopSteps, hu, hroom]
  · intro u v hv hne
    rcases loop_step_cases u v hv with ⟨-, rfl⟩ | ⟨-, rfl⟩ | ⟨-, -, rfl⟩ |
      ⟨-, m, rest, -, rfl⟩ | ⟨-, m, rest, -, rfl⟩ | ⟨m, h, -, rfl⟩ | ⟨m, -, -, rfl⟩ |
      ⟨-, h, -, rfl⟩ | ⟨-, -, rfl⟩ | ⟨-, h, -, rfl⟩ | ⟨-, -, rfl⟩ <;> simp at hne
    exact ⟨m, h, rfl⟩
  · intro u v e hv htr
    rcases loop_step_cases u v hv with ⟨-, rfl⟩ | ⟨-, rfl⟩ | ⟨-, -, rfl⟩ |
      ⟨-, m, rest, -, rfl⟩ | ⟨-, m, rest, -, rfl⟩ | ⟨m, -, -, rfl⟩ | ⟨m, h, -, rfl⟩ |
      ⟨-, h, -, rfl⟩ | ⟨-, -, rfl⟩ | ⟨-, h, -, rfl⟩ | ⟨-, -, rfl⟩ <;> simp at htr
    subst htr
    exact h

/-- Witness of C7: the loop receives `sidecarsBuiltEvent` from the sidecars feed. -/
theorem C7_sidecars_feed_routing_witness :
    sidecarsRun4 ∈ loopSteps sidecarsRun3 ∧
      sidecarsRun4.trace = sidecarsRun3.trace ++ [Act.recvSidecars sidecarsBuiltEvent] ∧
      sidecarsRun4.pc = PC.sendSidecars sidecarsBuiltEvent ∧
      sidecarsRun4.blkCh = sidecarsRun3.blkCh ∧
      sidecarsRun4.sidecarsCh = sidecarsRun3.sidecarsCh :=
  have h := C7_sidecars_feed_routing sidecarsRun3 sidecarsRun4 sidecarsBuiltEvent
    (by decide) (by decide)
  ⟨by decide, by decide, h.2.2.1.mpr (Or.inl rfl), h.2.2.2.2.1, h.2.2.2.2.2.1⟩

/-! ### Sample runs are runs of the system -/

theorem reachable_run2 : Reachable run2 :=
  Reachable.loop (Reachable.loop (Reachable.init _ _) (show run1 ∈ loopSteps run0 by decide))
    (show run2 ∈ loopSteps run1 by decide)

theorem reachable_run5 : Reachable run5 :=
  Reachable.loop
    (Reachable.loop
      (Reachable.env (EnvAct.feedBlk builtEvent) reachable_run2
        (show envStep (EnvAct.feedBlk builtEvent) run2 = some run3 by decide))
      (show run4 ∈ loopSteps run3 by decide))
    (show run5 ∈ loopSteps run4 by decide)

theorem reachable_run7 : Reachable run7 :=
  Reachable.loop
    (Reachable.env (EnvAct.feedBlk verifiedEvent) reachable_run5
      (show envStep (EnvAct.feedBlk verifiedEvent) run5 = some run6 by decide))
    (show run7 ∈ loopSteps run6 by decide)

theorem reachable_blockedState : Reachable blockedState :=
  Reachable.env EnvAct.cancel reachable_run7
    (show envStep EnvAct.cancel run7 = some blockedState by decide)

theorem reachable_cancelRun6 : Reachable cancelRun6 :=
  Reachable.loop
    (Reachable.loop
      (Reachable.loop
        (Reachable.env EnvAct.cancel reachable_run2
          (show envStep EnvAct.cancel run2 = some cancelRun3 by decide))
        (show cancelRun4 ∈ loopSteps cancelRun3 by decide))
      (show cancelRun5 ∈ loopSteps cancelRun4 by decide))
    (show cancelRun6 ∈ loopSteps cancelRun5 by decide)

/-! ### Cancellation -/

theorem loopReach_of_no_step (s t : State B S) (h : loopSteps s = []) (hr : LoopReach s t) :
    t = s := by
  induction hr with
  | refl => rfl
  | tail _ hstep ih =>
    subst ih
    rw [h] at hstep
    simp at hstep

theorem loopReach_returned_of_deferBlk (s : State B S) (hpc : s.pc = PC.deferBlk) :
    ∃ t, LoopReach s t ∧ t.pc = PC.returned := by
  cases hb : s.blkSub with
  | none =>
    exact ⟨{ s with pc := PC.returned },
      Relation.ReflTransGen.single (by simp [loopSteps, hpc, hb]), rfl⟩
  | some h =>
    exact ⟨{ s with pc := PC.returned, blkFeed := s.blkFeed.Unsubscribe h,
                    trace := s.trace ++ [Act.unsubscribeBlk h] },
      Relation.ReflTransGen.single (by simp [loopSteps, hpc, hb]), rfl⟩

theorem loopReach_returned_of_deferSidecars (s : State B S) (hpc : s.pc = PC.deferSidecars) :
    ∃ t, LoopReach s t ∧ t.pc = PC.returned := by
  cases hb : s.sidecarsSub with
  | none =>
    obtain ⟨t, ht, hret⟩ :=
      loopReach_returned_of_deferBlk ({ s with pc := PC.deferBlk } : State B S) rfl
    exact ⟨t, Relation.ReflTransGen.head (by simp [loopSteps, hpc, hb]) ht, hret⟩
  | some h =>
    obtain ⟨t, ht, hret⟩ :=
      loopReach_returned_of_deferBlk
        ({ s with pc := PC.deferBlk, sidecarsFeed := s.sidecarsFeed.Unsubscribe h,
                  trace := s.trace ++ [Act.unsubscribeSidecars h] } : State B S) rfl
    exact ⟨t, Relation.ReflTransGen.head (by simp [loopSteps, hpc, hb]) ht, hret⟩

theorem loopReach_returned_of_select (s : State B S) (hpc : s.pc = PC.select)
    (hctx : s.ctxDone = true) : ∃ t, LoopReach s t ∧ t.pc = PC.returned := by
  obtain ⟨t, ht, hret⟩ :=
    loopReach_returned_of_deferSidecars
      ({ s with pc := PC.deferSidecars, trace := s.trace ++ [Act.ctxDone] } : State B S) rfl
  exact ⟨t, Relation.ReflTransGen.head (by simp [loopSteps, hpc, selectCtxDone, hctx]) ht, hret⟩

theorem loopReach_returned_of_blkSubscribed (s : State B S) (hpc : s.pc = PC.blkSubscribed)
    (hctx : s.ctxDone = true) : ∃ t, LoopReach s t ∧ t.pc = PC.returned := by
  obtain ⟨t, ht, hret⟩ :=
    loopReach_returned_of_select
      ({ s with pc := PC.select,
                sidecarsFeed := s.sidecarsFeed.Subscribe.2,
                sidecarsSub := some s.sidecarsFeed.Subscribe.1,
                trace := s.trace ++ [Act.subscribeSidecars s.sidecarsFeed.Subscribe.1] }
        : State B S)
      rfl hctx
  exact ⟨t, Relation.ReflTransGen.head (by simp [loopSteps, hpc]) ht, hret⟩

/-- C8 (as amended). Cancellation: in every state in which the context is cancelled
and the goroutine does not stand at a send on a full delivery channel, the goroutine
can reach the end of `start` by its own moves alone, with no consumer draining
`am.blkCh` or `am.sidecarsCh`; at the select, one move (`case <-ctx.Done()`) ends the
loop. At a send on a full delivery channel the goroutine has no move at all. -/
theorem C8_cancellation_unless_blocked (s : State B S) (hctx : s.ctxDone = true)
    (hnb : blockedOnSend s = false) :
    (∃ t, LoopReach s t ∧ t.pc = PC.returned) ∧
    (s.pc = PC.select → ∃ t ∈ loopSteps s, t.pc = PC.deferSidecars) ∧
    (∀ u : State B S, blockedOnSend u = true → loopSteps u = []) := by
  refine ⟨?_, ?_, ?_⟩
  · cases hpc : s.pc with
    | entry =>
      obtain ⟨t, ht, hret⟩ :=
        loopReach_returned_of_blkSubscribed
          ({ s with pc := PC.blkSubscribed, blkFeed := s.blkFeed.Subscribe.2,
                    blkSub := some s.blkFeed.Subscribe.1,
                    trace := s.trace ++ [Act.subscribeBlk s.blkFeed.Subscribe.1] }
            : State B S)
          rfl hctx
      exact ⟨t, Relation.ReflTransGen.head (by simp [loopSteps, hpc]) ht, hret⟩
    | blkSubscribed => exact loopReach_returned_of_blkSubscribed s hpc hctx
    | select => exact loopReach_returned_of_select s hpc hctx
    | sendBlk msg =>
      have hroom : s.blkCh.length < chanCap := by
        simpa [blockedOnSend, hpc] using hnb
      obtain ⟨t, ht, hret⟩ :=
        loopReach_returned_of_select
          ({ s with pc := PC.select, blkCh := s.blkCh ++ [msg],
                    trace := s.trace ++ [Act.putBlk msg] } : State B S) rfl hctx
      exact ⟨t, Relation.ReflTransGen.head (by simp [loopSteps, hpc, hroom]) ht, hret⟩
    | sendSidecars msg =>
      have hroom : s.sidecarsCh.length < chanCap := by
        simpa [blockedOnSend, hpc] using hnb
      obtain ⟨t, ht, hret⟩ :=
        loopReach_returned_of_select
          ({ s with pc := PC.select, sidecarsCh := s.sidecarsCh ++ [msg],
                    trace := s.trace ++ [Act.putSidecars msg] } : State B S) rfl hctx
      exact ⟨t, Relation.ReflTransGen.head (by simp [loopSteps, hpc, hroom]) ht, hret⟩
    | deferSidecars => exact loopReach_returned_of_deferSidecars s hpc
    | deferBlk => exact loopReach_returned_of_deferBlk s hpc
    | returned => exact ⟨s, Relation.ReflTransGen.refl, hpc⟩
  · intro hpc
    exact ⟨{ s with pc := PC.deferSidecars, trace := s.trace ++ [Act.ctxDone] },
      by simp [loopSteps, hpc, selectCtxDone, hctx], rfl⟩
  · intro u hu
    unfold blockedOnSend at hu
    split at hu
    · next msg hpc =>
      have : ¬ u.blkCh.length < chanCap := by simpa using hu
      simp [loopSteps, hpc, this]
    · next msg hpc =>
      have : ¬ u.sidecarsCh.length < chanCap := by simpa using hu
      simp [loopSteps, hpc, this]
    · simp at hu

/-- Witness of C8 (as amended): the loop at the select with a cancelled context. -/
theorem C8_cancellation_unless_blocked_witness :
    cancelRun3.ctxDone = true ∧ blockedOnSend cancelRun3 = false ∧
      (∃ t, LoopReach cancelRun3 t ∧ t.pc = PC.returned) :=
  ⟨rfl, rfl, (C8_cancellation_unless_blocked cancelRun3 rfl rfl).1⟩

/-- C8, counterexample to the claim as stated. The state `blockedState` is reachable:
the block feed delivers `builtEvent`, the loop forwards it to `am.blkCh`, the feed
delivers `verifiedEvent` before any consumer drained `am.blkCh`, the loop receives it
and stands at `am.blkCh <- msg`, and the context is cancelled. There the context is
cancelled, the loop holds a matching event, `am.blkCh` is full, and the goroutine has
no move: it can neither end in one move nor reach the end of `start` by any number of
its own moves. -/
theorem C8_blocked_send_counterexample :
    Reachable blockedState ∧ blockedState.ctxDone = true ∧
      blockedState.pc = PC.sendBlk verifiedEvent ∧
      verifiedEvent.type = EventType.BeaconBlockVerified ∧
      blockedState.blkCh.length = chanCap ∧
      loopSteps blockedState = [] ∧
      ¬ ∃ t, LoopReach blockedState t ∧ t.pc = PC.returned := by
  refine ⟨reachable_blockedState, rfl, rfl, rfl, rfl, by decide, ?_⟩
  rintro ⟨t, ht, hret⟩
  have := loopReach_of_no_step blockedState t (by decide) ht
  subst this
  exact absurd hret (by decide)

/-! ### Subscriptions -/

theorem FeedOf.extends_refl (f : FeedOf) : f.Extends f := ⟨Nat.le_refl _, fun _ _ h => h⟩

theorem FeedOf.extends_subscribe (f : FeedOf) : f.Extends f.Subscribe.2 := by
  refine ⟨by simp [FeedOf.Subscribe], fun h hlt hmem => ?_⟩
  simp only [FeedOf.Subscribe, List.mem_append, List.mem_singleton] at hmem
  rcases hmem with hmem | hmem
  · exact hmem
  · omega

theorem FeedOf.extends_unsubscribe (f : FeedOf) (x : Nat) : f.Extends (f.Unsubscribe x) := by
  refine ⟨by simp [FeedOf.Unsubscribe], fun h _ hmem => ?_⟩
  simp only [FeedOf.Unsubscribe, List.mem_filter] at hmem
  exact hmem.1

theorem FeedOf.not_mem_unsubscribe (f : FeedOf) (x : Nat) : x ∉ (f.Unsubscribe x).subs := by
  simp [FeedOf.Unsubscribe]

/-- A move that keeps the control point, the history and the handles, and only extends
the registries, keeps `SubscriptionInv`. -/
theorem subscriptionInv_frame (s t : State B S) (hpc : t.pc = s.pc)
    (htr : t.trace = s.trace) (hb : t.blkSub = s.blkSub) (hs : t.sidecarsSub = s.sidecarsSub)
    (hbf : s.blkFeed.Extends t.blkFeed) (hsf : s.sidecarsFeed.Extends t.sidecarsFeed)
    (h : SubscriptionInv s) : SubscriptionInv t := by
  obtain ⟨h1, h2, h3⟩ := h
  refine ⟨?_, ?_, ?_⟩
  · intro e
    rw [htr, hb, hs]
    exact h1 (hpc ▸ e)
  · intro e
    obtain ⟨x, a, b, c, d⟩ := h2 (hpc ▸ e)
    exact ⟨x, htr ▸ a, hb ▸ b, hs ▸ c, Nat.lt_of_lt_of_le d hbf.1⟩
  · intro e1 e2
    obtain ⟨x, y, mid, a, b, c, d, e, f, g, k⟩ := h3 (hpc ▸ e1) (hpc ▸ e2)
    refine ⟨x, y, mid, ?_, b, hb ▸ c, hs ▸ d, Nat.lt_of_lt_of_le e hbf.1,
      Nat.lt_of_lt_of_le f hsf.1, ?_, ?_⟩
    · rw [htr, hpc]; exact a
    · intro hp hmem
      exact g (hpc ▸ hp) (hsf.2 y f hmem)
    · intro hp hmem
      exact k (hpc ▸ hp) (hbf.2 x e hmem)

theorem subscriptionInv_env (a : EnvAct B S) (s t : State B S) (hstep : envStep a s = some t)
    (h : SubscriptionInv s) : SubscriptionInv t := by
  cases a with
  | cancel =>
    simp only [envStep, Option.some.injEq] at hstep
    subst hstep
    exact subscriptionInv_frame s _ rfl rfl rfl rfl (FeedOf.extends_refl _)
      (FeedOf.extends_refl _) h
  | feedBlk e =>
    simp only [envStep] at hstep
    split at hstep
    · split at hstep
      · simp only [Option.some.injEq] at hstep
        subst hstep
        exact subscriptionInv_frame s _ rfl rfl rfl rfl (FeedOf.extends_refl _)
          (FeedOf.extends_refl _) h
      · cases hstep
    · cases hstep
  | feedSidecars e =>
    simp only [envStep] at hstep
    split at hstep
    · split at hstep
      · simp only [Option.some.injEq] at hstep
        subst hstep
        exact subscriptionInv_frame s _ rfl rfl rfl rfl (FeedOf.extends_refl _)
          (FeedOf.extends_refl _) h
      · cases hstep
    · cases hstep
  | takeBlk =>
    simp only [envStep] at hstep
    split at hstep
    · simp only [Option.some.injEq] at hstep
      subst hstep
      exact subscriptionInv_frame s _ rfl rfl rfl rfl (FeedOf.extends_refl _)
        (FeedOf.extends_refl _) h
    · cases hstep
  | takeSidecars =>
    simp only [envStep] at hstep
    split at hstep
    · simp only [Option.some.injEq] at hstep
      subst hstep
      exact subscriptionInv_frame s _ rfl rfl rfl rfl (FeedOf.extends_refl _)
        (FeedOf.extends_refl _) h
    · cases hstep
  | otherSubscribeBlk =>
    simp only [envStep, Option.some.injEq] at hstep
    subst hstep
    exact subscriptionInv_frame s _ rfl rfl rfl rfl (FeedOf.extends_subscribe _)
      (FeedOf.extends_refl _) h
  | otherUnsubscribeBlk x =>
    simp only [envStep] at hstep
    split at hstep
    · cases hstep
    · simp only [Option.some.injEq] at hstep
      subst hstep
      exact subscriptionInv_frame s _ rfl rfl rfl rfl (FeedOf.extends_unsubscribe _ _)
        (FeedOf.extends_refl _) h
  | otherSubscribeSidecars =>
    simp only [envStep, Option.some.injEq] at hstep
    subst hstep
    exact subscriptionInv_frame s _ rfl rfl rfl rfl (FeedOf.extends_refl _)
      (FeedOf.extends_subscribe _) h
  | otherUnsubscribeSidecars x =>
    simp only [envStep] at hstep
    split at hstep
    · cases hstep
    · simp only [Option.some.injEq] at hstep
      subst hstep
      exact subscriptionInv_frame s _ rfl rfl rfl rfl (FeedOf.extends_refl _)
        (FeedOf.extends_unsubscribe _ _) h

theorem onBlkMsg_cases (msg : Event B) :
    (onBlkMsg msg : PC B S) = PC.sendBlk msg ∨ (onBlkMsg msg : PC B S) = PC.select := by
  unfold onBlkMsg
  split <;> simp

theorem onSidecarsMsg_cases (msg : Event S) :
    (onSidecarsMsg msg : PC B S) = PC.sendSidecars msg ∨
      (onSidecarsMsg msg : PC B S) = PC.select := by
  unfold onSidecarsMsg
  split <;> simp

/-- A move inside the loop (from a loop control point to a loop control point, adding
one forwarding move to the history and touching neither registry nor handle) keeps
`SubscriptionInv`. -/
theorem subscriptionInv_forward (s t : State B S) (a : Act B S)
    (hs : s.pc = PC.select ∨ (∃ m, s.pc = PC.sendBlk m) ∨ ∃ m, s.pc = PC.sendSidecars m)
    (ht : t.pc = PC.select ∨ (∃ m, t.pc = PC.sendBlk m) ∨ ∃ m, t.pc = PC.sendSidecars m)
    (ha : a.isForwarding = true) (htr : t.trace = s.trace ++ [a])
    (hb : t.blkSub = s.blkSub) (hsc : t.sidecarsSub = s.sidecarsSub)
    (hbf : t.blkFeed = s.blkFeed) (hsf : t.sidecarsFeed = s.sidecarsFeed)
    (h : SubscriptionInv s) : SubscriptionInv t := by
  have hcs : ∀ x y, closing s.pc x y = ([] : List (Act B S)) := by
    intro x y
    rcases hs with e | ⟨m, e⟩ | ⟨m, e⟩ <;> rw [e] <;> rfl
  have hct : ∀ x y, closing t.pc x y = ([] : List (Act B S)) := by
    intro x y
    rcases ht with e | ⟨m, e⟩ | ⟨m, e⟩ <;> rw [e] <;> rfl
  have hs1 : s.pc ≠ PC.entry := by
    rcases hs with e | ⟨m, e⟩ | ⟨m, e⟩ <;> rw [e] <;> simp
  have hs2 : s.pc ≠ PC.blkSubscribed := by
    rcases hs with e | ⟨m, e⟩ | ⟨m, e⟩ <;> rw [e] <;> simp
  obtain ⟨x, y, mid, p1, p2, p3, p4, p5, p6, -, -⟩ := h.2.2 hs1 hs2
  refine ⟨?_, ?_, ?_⟩
  · intro e
    rcases ht with e2 | ⟨m, e2⟩ | ⟨m, e2⟩ <;> rw [e2] at e <;> cases e
  · intro e
    rcases ht with e2 | ⟨m, e2⟩ | ⟨m, e2⟩ <;> rw [e2] at e <;> cases e
  · intro _ _
    refine ⟨x, y, mid ++ [a], ?_, ?_, hb ▸ p3, hsc ▸ p4, hbf ▸ p5, hsf ▸ p6, ?_, ?_⟩
    · rw [htr, p1, hcs, hct]
      simp
    · intro b hbm
      rcases List.mem_append.mp hbm with hbm | hbm
      · exact p2 b hbm
      · rw [List.mem_singleton.mp hbm]; exact ha
    · intro e
      rcases ht with e2 | ⟨m, e2⟩ | ⟨m, e2⟩ <;> rw [e2] at e <;> rcases e with e | e <;>
        cases e
    · intro e
      rcases ht with e2 | ⟨m, e2⟩ | ⟨m, e2⟩ <;> rw [e2] at e <;> cases e

theorem subscriptionInv_loop (s t : State B S) (hstep : t ∈ loopSteps s)
    (h : SubscriptionInv s) : SubscriptionInv t := by
  rcases loop_step_cases s t hstep with ⟨hpc, rfl⟩ | ⟨hpc, rfl⟩ | ⟨hpc, -, rfl⟩ |
    ⟨hpc, m, rest, -, rfl⟩ | ⟨hpc, m, rest, -, rfl⟩ | ⟨m, hpc, -, rfl⟩ | ⟨m, hpc, -, rfl⟩ |
    ⟨hpc, x, hx, rfl⟩ | ⟨hpc, hx, rfl⟩ | ⟨hpc, x, hx, rfl⟩ | ⟨hpc, hx, rfl⟩
  · -- blkSub := am.blkFeed.Subscribe(subBlkCh)
    obtain ⟨p1, p2, p3⟩ := h.1 hpc
    refine ⟨fun e => (by cases e), fun _ => ?_, fun _ e => absurd rfl e⟩
    exact ⟨s.blkFeed.next, by simp [p1, FeedOf.Subscribe], rfl, p3, by simp [FeedOf.Subscribe]⟩
  · -- sidecarsSub := am.sidecarsFeed.Subscribe(subSidecarsCh)
    obtain ⟨hb, p1, p2, p3, p4⟩ := h.2.1 hpc
    refine ⟨fun e => (by cases e), fun e => (by cases e), fun _ _ => ?_⟩
    exact ⟨hb, s.sidecarsFeed.next, [], by simp [p1, FeedOf.Subscribe, closing], by simp,
      p2, rfl, p4, by simp [FeedOf.Subscribe], fun e => (by rcases e with e | e <;> cases e),
      fun e => (by cases e)⟩
  · -- case <-ctx.Done(): return
    obtain ⟨x, y, mid, p1, p2, p3, p4, p5, p6, -, -⟩ :=
      h.2.2 (by rw [hpc]; simp) (by rw [hpc]; simp)
    refine ⟨fun e => (by cases e), fun e => (by cases e), fun _ _ => ?_⟩
    refine ⟨x, y, mid, ?_, p2, p3, p4, p5, p6, fun e => (by rcases e with e | e <;> cases e),
      fun e => (by cases e)⟩
    rw [hpc] at p1
    simp [p1, closing]
  · -- case msg := <-subBlkCh
    refine subscriptionInv_forward s _ (Act.recvBlk m) (Or.inl hpc) ?_ rfl rfl rfl rfl rfl rfl h
    rcases onBlkMsg_cases (S := S) m with e | e
    · exact Or.inr (Or.inl ⟨m, e⟩)
    · exact Or.inl e
  · -- case msg := <-subSidecarsCh
    refine subscriptionInv_forward s _ (Act.recvSidecars m) (Or.inl hpc) ?_ rfl rfl rfl rfl
      rfl rfl h
    rcases onSidecarsMsg_cases (B := B) m with e | e
    · exact Or.inr (Or.inr ⟨m, e⟩)
    · exact Or.inl e
  · -- am.blkCh <- msg
    exact subscriptionInv_forward s _ (Act.putBlk m) (Or.inr (Or.inl ⟨m, hpc⟩)) (Or.inl rfl)
      rfl rfl rfl rfl rfl rfl h
  · -- am.sidecarsCh <- msg
    exact subscriptionInv_forward s _ (Act.putSidecars m) (Or.inr (Or.inr ⟨m, hpc⟩))
      (Or.inl rfl) rfl rfl rfl rfl rfl rfl h
  · -- deferred sidecarsSub.Unsubscribe()
    obtain ⟨hb, hs, mid, p1, p2, p3, p4, p5, p6, -, -⟩ :=
      h.2.2 (by rw [hpc]; simp) (by rw [hpc]; simp)
    have hxs : x = hs := by rw [hx] at p4; exact Option.some.inj p4
    subst hxs
    refine ⟨fun e => (by cases e), fun e => (by cases e), fun _ _ => ?_⟩
    refine ⟨hb, x, mid, ?_, p2, p3, p4, p5, by simpa [FeedOf.Unsubscribe] using p6,
      fun _ => FeedOf.not_mem_unsubscribe _ _, fun e => (by cases e)⟩
    rw [hpc] at p1
    simp [p1, closing]
  · -- unreachable: no sidecars handle
    obtain ⟨hb, hs, mid, p1, p2, p3, p4, -⟩ :=
      h.2.2 (by rw [hpc]; simp) (by rw [hpc]; simp)
    rw [hx] at p4
    cases p4
  · -- deferred blkSub.Unsubscribe()
    obtain ⟨hb, hs, mid, p1, p2, p3, p4, p5, p6, p7, -⟩ :=
      h.2.2 (by rw [hpc]; simp) (by rw [hpc]; simp)
    have hxs : x = hb := by rw [hx] at p3; exact Option.some.inj p3
    subst hxs
    refine ⟨fun e => (by cases e), fun e => (by cases e), fun _ _ => ?_⟩
    refine ⟨x, hs, mid, ?_, p2, p3, p4, by simpa [FeedOf.Unsubscribe] using p5, p6,
      fun _ => p7 (Or.inl hpc), fun _ => FeedOf.not_mem_unsubscribe _ _⟩
    rw [hpc] at p1
    simp [p1, closing]
  · -- unreachable: no block handle
    obtain ⟨hb, hs, mid, p1, p2, p3, -⟩ :=
      h.2.2 (by rw [hpc]; simp) (by rw [hpc]; simp)
    rw [hx] at p3
    cases p3

theorem subscriptionInv_of_reachable (s : State B S) (hr : Reachable s) :
    SubscriptionInv s := by
  induction hr with
  | init bf sf =>
    exact ⟨fun _ => ⟨rfl, rfl, rfl⟩, fun e => (by cases e), fun e => absurd rfl e⟩
  | loop _ hstep ih => exact subscriptionInv_loop _ _ hstep ih
  | env a _ hstep ih => exact subscriptionInv_env a _ _ hstep ih

/-- C9. Subscriptions: in every reachable state, the goroutine's history is empty
before the first `Subscribe`, is the single block-feed `Subscribe` before the second,
and from the loop on starts with exactly one `Subscribe` on the block feed and one on
the sidecars feed, with no further `Subscribe` after them, so both precede every
receive. Once `start` has returned, the history ends with the `return` on the
cancelled context followed by `sidecarsSub.Unsubscribe()` and `blkSub.Unsubscribe()`
for those same two handles, everything in between being receives and sends, and
neither handle is registered in its feed any more. -/
theorem C9_subscriptions (s : State B S) (hr : Reachable s) :
    (s.pc = PC.entry → s.trace = []) ∧
    (s.pc = PC.blkSubscribed → ∃ hb, s.trace = [Act.subscribeBlk hb]) ∧
    (s.pc ≠ PC.entry → s.pc ≠ PC.blkSubscribed →
      ∃ hb hs rest, s.trace = Act.subscribeBlk hb :: Act.subscribeSidecars hs :: rest ∧
        s.blkSub = some hb ∧ s.sidecarsSub = some hs ∧
        ∀ a ∈ rest, ∀ h, a ≠ Act.subscribeBlk h ∧ a ≠ Act.subscribeSidecars h) ∧
    (s.pc = PC.returned →
      ∃ hb hs mid,
        s.trace = Act.subscribeBlk hb :: Act.subscribeSidecars hs ::
          (mid ++ [Act.ctxDone, Act.unsubscribeSidecars hs, Act.unsubscribeBlk hb]) ∧
        (∀ a ∈ mid, Act.isForwarding a = true) ∧
        hb ∉ s.blkFeed.subs ∧ hs ∉ s.sidecarsFeed.subs) := by
  obtain ⟨h1, h2, h3⟩ := subscriptionInv_of_reachable s hr
  refine ⟨fun e => (h1 e).1, fun e => ?_, fun e1 e2 => ?_, fun e => ?_⟩
  · obtain ⟨hb, p, -⟩ := h2 e
    exact ⟨hb, p⟩
  · obtain ⟨hb, hs, mid, p1, p2, p3, p4, -⟩ := h3 e1 e2
    refine ⟨hb, hs, mid ++ closing s.pc hb hs, p1, p3, p4, ?_⟩
    intro a ha h
    rcases List.mem_append.mp ha with ha | ha
    · have := p2 a ha
      constructor <;> rintro rfl <;> simp [Act.isForwarding] at this
    · unfold closing at ha
      split at ha <;> simp at ha <;> constructor <;> rintro rfl <;> simp at ha
  · obtain ⟨hb, hs, mid, p1, p2, -, -, -, -, p7, p8⟩ :=
      h3 (by rw [e]; simp) (by rw [e]; simp)
    refine ⟨hb, hs, mid, ?_, p2, p8 e, p7 (Or.inr e)⟩
    rw [p1, e]
    rfl

/-- Witness of C9: the run that subscribes, is cancelled at the select and returns. -/
theorem C9_subscriptions_witness :
    Reachable cancelRun6 ∧ cancelRun6.pc = PC.returned ∧
      cancelRun6.trace = [Act.subscribeBlk 0, Act.subscribeSidecars 0, Act.ctxDone,
        Act.unsubscribeSidecars 0, Act.unsubscribeBlk 0] ∧
      (∃ hb hs mid,
        cancelRun6.trace = Act.subscribeBlk hb :: Act.subscribeSidecars hs ::
          (mid ++ [Act.ctxDone, Act.unsubscribeSidecars hs, Act.unsubscribeBlk hb]) ∧
        (∀ a ∈ mid, Act.isForwarding a = true) ∧
        hb ∉ cancelRun6.blkFeed.subs ∧ hs ∉ cancelRun6.sidecarsFeed.subs) :=
  ⟨reachable_cancelRun6, rfl, rfl, (C9_subscriptions cancelRun6 reachable_cancelRun6).2.2.2 rfl⟩

/-! ### Forwarding order -/

theorem recvsBlk_append (l r : List (Act B S)) :
    recvsBlk (l ++ r) = recvsBlk l ++ recvsBlk r := by
  induction l with
  | nil => rfl
  | cons a l ih => cases a <;> simp [recvsBlk, ih]

theorem putsBlk_append (l r : List (Act B S)) :
    putsBlk (l ++ r) = putsBlk l ++ putsBlk r := by
  induction l with
  | nil => rfl
  | cons a l ih => cases a <;> simp [putsBlk, ih]

theorem recvsSidecars_append (l r : List (Act B S)) :
    recvsSidecars (l ++ r) = recvsSidecars l ++ recvsSidecars r := by
  induction l with
  | nil => rfl
  | cons a l ih => cases a <;> simp [recvsSidecars, ih]

theorem putsSidecars_append (l r : List (Act B S)) :
    putsSidecars (l ++ r) = putsSidecars l ++ putsSidecars r := by
  induction l with
  | nil => rfl
  | cons a l ih => cases a <;> simp [putsSidecars, ih]

theorem pendingBlk_onBlkMsg (m : Event B) :
    pendingBlk (onBlkMsg m : PC B S) = [m].filter (fun e => acceptsBlk e.type) := by
  unfold onBlkMsg
  split <;> simp_all [pendingBlk, acceptsBlk]

theorem pendingSidecars_onBlkMsg (m : Event B) :
    pendingSidecars (onBlkMsg m : PC B S) = [] := by
  unfold onBlkMsg
  split <;> rfl

theorem pendingSidecars_onSidecarsMsg (m : Event S) :
    pendingSidecars (onSidecarsMsg m : PC B S)
      = [m].filter (fun e => acceptsSidecars e.type) := by
  unfold onSidecarsMsg
  split <;> simp_all [pendingSidecars, acceptsSidecars]

theorem pendingBlk_onSidecarsMsg (m : Event S) :
    pendingBlk (onSidecarsMsg m : PC B S) = [] := by
  unfold onSidecarsMsg
  split <;> rfl

/-- `ForwardInv` only reads the four projections of the history, the held events, the
four channels and the two feed histories. -/
theorem forwardInv_congr (s t : State B S)
    (h1 : putsBlk t.trace = putsBlk s.trace) (h2 : recvsBlk t.trace = recvsBlk s.trace)
    (h3 : putsSidecars t.trace = putsSidecars s.trace)
    (h4 : recvsSidecars t.trace = recvsSidecars s.trace)
    (h5 : pendingBlk t.pc = pendingBlk s.pc)
    (h6 : pendingSidecars t.pc = pendingSidecars s.pc)
    (h7 : t.subBlkCh = s.subBlkCh) (h8 : t.subSidecarsCh = s.subSidecarsCh)
    (h9 : t.blkCh = s.blkCh) (h10 : t.sidecarsCh = s.sidecarsCh)
    (h11 : t.fedBlk = s.fedBlk) (h12 : t.fedSidecars = s.fedSidecars)
    (h : ForwardInv s) : ForwardInv t := by
  unfold ForwardInv
  rw [h1, h2, h3, h4, h5, h6, h7, h8, h9, h10, h11, h12]
  exact h

theorem forwardInv_loop (s t : State B S) (hstep : t ∈ loopSteps s) (h : ForwardInv s) :
    ForwardInv t := by
  have hinv := h
  obtain ⟨a1, a2, a3, a4, ⟨k1, a5⟩, ⟨k2, a6⟩⟩ := h
  rcases loop_step_cases s t hstep with ⟨hpc, rfl⟩ | ⟨hpc, rfl⟩ | ⟨hpc, -, rfl⟩ |
    ⟨hpc, m, rest, hch, rfl⟩ | ⟨hpc, m, rest, hch, rfl⟩ | ⟨m, hpc, -, rfl⟩ |
    ⟨m, hpc, -, rfl⟩ | ⟨hpc, x, -, rfl⟩ | ⟨hpc, -, rfl⟩ | ⟨hpc, x, -, rfl⟩ | ⟨hpc, -, rfl⟩ <;>
    rw [hpc] at a1 a2 <;>
    simp only [pendingBlk, pendingSidecars, List.append_nil] at a1 a2
  · refine forwardInv_congr s _ ?_ ?_ ?_ ?_ ?_ ?_ rfl rfl rfl rfl rfl rfl hinv <;>
      simp [recvsBlk_append, putsBlk_append, recvsSidecars_append, putsSidecars_append,
        recvsBlk, putsBlk, recvsSidecars, putsSidecars, pendingBlk, pendingSidecars, hpc]
  · refine forwardInv_congr s _ ?_ ?_ ?_ ?_ ?_ ?_ rfl rfl rfl rfl rfl rfl hinv <;>
      simp [recvsBlk_append, putsBlk_append, recvsSidecars_append, putsSidecars_append,
        recvsBlk, putsBlk, recvsSidecars, putsSidecars, pendingBlk, pendingSidecars, hpc]
  · refine forwardInv_congr s _ ?_ ?_ ?_ ?_ ?_ ?_ rfl rfl rfl rfl rfl rfl hinv <;>
      simp [recvsBlk_append, putsBlk_append, recvsSidecars_append, putsSidecars_append,
        recvsBlk, putsBlk, recvsSidecars, putsSidecars, pendingBlk, pendingSidecars, hpc]
  · refine ⟨?_, ?_, ?_, ?_, ⟨k1, ?_⟩, ⟨k2, ?_⟩⟩
    · simp only [recvsBlk_append, putsBlk_append, recvsBlk, putsBlk, List.append_nil,
        List.filter_append, pendingBlk_onBlkMsg, a1]
    · simp only [recvsSidecars_append, putsSidecars_append, recvsSidecars, putsSidecars,
        List.append_nil, pendingSidecars_onBlkMsg, a2]
    · simp only [recvsBlk_append, recvsBlk, List.append_assoc, List.singleton_append]
      rw [← hch]; exact a3
    · simp only [recvsSidecars_append, recvsSidecars, List.append_nil]; exact a4
    · simp only [putsBlk_append, putsBlk, List.append_nil]; exact a5
    · simp only [putsSidecars_append, putsSidecars, List.append_nil]; exact a6
  · refine ⟨?_, ?_, ?_, ?_, ⟨k1, ?_⟩, ⟨k2, ?_⟩⟩
    · simp only [recvsBlk_append, putsBlk_append, recvsBlk, putsBlk, List.append_nil,
        pendingBlk_onSidecarsMsg, a1]
    · simp only [recvsSidecars_append, putsSidecars_append, recvsSidecars, putsSidecars,
        List.append_nil, List.filter_append, pendingSidecars_onSidecarsMsg, a2]
    · simp only [recvsBlk_append, recvsBlk, List.append_nil]; exact a3
    · simp only [recvsSidecars_append, recvsSidecars, List.append_assoc,
        List.singleton_append]
      rw [← hch]; exact a4
    · simp only [putsBlk_append, putsBlk, List.append_nil]; exact a5
    · simp only [putsSidecars_append, putsSidecars, List.append_nil]; exact a6
  · refine ⟨?_, ?_, ?_, ?_, ⟨k1, ?_⟩, ⟨k2, ?_⟩⟩
    · simp only [recvsBlk_append, putsBlk_append, recvsBlk, putsBlk, List.append_nil,
        pendingBlk]
      exact a1
    · simp only [recvsSidecars_append, putsSidecars_append, recvsSidecars, putsSidecars,
        List.append_nil, pendingSidecars]
      exact a2
    · simp only [recvsBlk_append, recvsBlk, List.append_nil]; exact a3
    · simp only [recvsSidecars_append, recvsSidecars, List.append_nil]; exact a4
    · simp only [putsBlk_append, putsBlk, a5, List.append_assoc]
    · simp only [putsSidecars_append, putsSidecars, List.append_nil]; exact a6
  · refine ⟨?_, ?_, ?_, ?_, ⟨k1, ?_⟩, ⟨k2, ?_⟩⟩
    · simp only [recvsBlk_append, putsBlk_append, recvsBlk, putsBlk, List.append_nil,
        pendingBlk]
      exact a1
    · simp only [recvsSidecars_append, putsSidecars_append, recvsSidecars, putsSidecars,
        List.append_nil, pendingSidecars]
      exact a2
    · simp only [recvsBlk_append, recvsBlk, List.append_nil]; exact a3
    · simp only [recvsSidecars_append, recvsSidecars, List.append_nil]; exact a4
    · simp only [putsBlk_append, putsBlk, List.append_nil]; exact a5
    · simp only [putsSidecars_append, putsSidecars, a6, List.append_assoc]
  · refine forwardInv_congr s _ ?_ ?_ ?_ ?_ ?_ ?_ rfl rfl rfl rfl rfl rfl hinv <;>
      simp [recvsBlk_append, putsBlk_append, recvsSidecars_append, putsSidecars_append,
        recvsBlk, putsBlk, recvsSidecars, putsSidecars, pendingBlk, pendingSidecars, hpc]
  · refine forwardInv_congr s _ rfl rfl rfl rfl ?_ ?_ rfl rfl rfl rfl rfl rfl hinv <;>
      simp [pendingBlk, pendingSidecars, hpc]
  · refine forwardInv_congr s _ ?_ ?_ ?_ ?_ ?_ ?_ rfl rfl rfl rfl rfl rfl hinv <;>
      simp [recvsBlk_append, putsBlk_append, recvsSidecars_append, putsSidecars_append,
        recvsBlk, putsBlk, recvsSidecars, putsSidecars, pendingBlk, pendingSidecars, hpc]
  · refine forwardInv_congr s _ rfl rfl rfl rfl ?_ ?_ rfl rfl rfl rfl rfl rfl hinv <;>
      simp [pendingBlk, pendingSidecars, hpc]

theorem forwardInv_env (a : EnvAct B S) (s t : State B S) (hstep : envStep a s = some t)
    (h : ForwardInv s) : ForwardInv t := by
  have hinv := h
  obtain ⟨a1, a2, a3, a4, ⟨k1, a5⟩, ⟨k2, a6⟩⟩ := h
  cases a with
  | cancel =>
    simp only [envStep, Option.some.injEq] at hstep
    subst hstep
    exact forwardInv_congr s _ rfl rfl rfl rfl rfl rfl rfl rfl rfl rfl rfl rfl hinv
  | feedBlk e =>
    simp only [envStep] at hstep
    split at hstep
    · split at hstep
      · simp only [Option.some.injEq] at hstep
        subst hstep
        exact ⟨a1, a2, by simp only [← List.append_assoc, a3], a4, ⟨k1, a5⟩, ⟨k2, a6⟩⟩
      · cases hstep
    · cases hstep
  | feedSidecars e =>
    simp only [envStep] at hstep
    split at hstep
    · split at hstep
      · simp only [Option.some.injEq] at hstep
        subst hstep
        exact ⟨a1, a2, a3, by simp only [← List.append_assoc, a4], ⟨k1, a5⟩, ⟨k2, a6⟩⟩
      · cases hstep
    · cases hstep
  | takeBlk =>
    simp only [envStep] at hstep
    split at hstep
    · next x rest hch =>
      simp only [Option.some.injEq] at hstep
      subst hstep
      exact ⟨a1, a2, a3, a4, ⟨k1 ++ [x], by simp [a5, hch]⟩, ⟨k2, a6⟩⟩
    · cases hstep
  | takeSidecars =>
    simp only [envStep] at hstep
    split at hstep
    · next x rest hch =>
      simp only [Option.some.injEq] at hstep
      subst hstep
      exact ⟨a1, a2, a3, a4, ⟨k1, a5⟩, ⟨k2 ++ [x], by simp [a6, hch]⟩⟩
    · cases hstep
  | otherSubscribeBlk =>
    simp only [envStep, Option.some.injEq] at hstep
    subst hstep
    exact forwardInv_congr s _ rfl rfl rfl rfl rfl rfl rfl rfl rfl rfl rfl rfl hinv
  | otherUnsubscribeBlk x =>
    simp only [envStep] at hstep
    split at hstep
    · cases hstep
    · simp only [Option.some.injEq] at hstep
      subst hstep
      exact forwardInv_congr s _ rfl rfl rfl rfl rfl rfl rfl rfl rfl rfl rfl rfl hinv
  | otherSubscribeSidecars =>
    simp only [envStep, Option.some.injEq] at hstep
    subst hstep
    exact forwardInv_congr s _ rfl rfl rfl rfl rfl rfl rfl rfl rfl rfl rfl rfl hinv
  | otherUnsubscribeSidecars x =>
    simp only [envStep] at hstep
    split at hstep
    · cases hstep
    · simp only [Option.some.injEq] at hstep
      subst hstep
      exact forwardInv_congr s _ rfl rfl rfl rfl rfl rfl rfl rfl rfl rfl rfl rfl hinv

theorem forwardInv_of_reachable (s : State B S) (hr : Reachable s) : ForwardInv s := by
  induction hr with
  | init bf sf => exact ⟨rfl, rfl, rfl, rfl, ⟨[], rfl⟩, ⟨[], rfl⟩⟩
  | loop _ hstep ih => exact forwardInv_loop _ _ hstep ih
  | env a _ hstep ih => exact forwardInv_env a _ _ hstep ih

theorem acceptsBlk_eq (t : EventType) :
    acceptsBlk t
      = decide (t = EventType.BeaconBlockBuilt ∨ t = EventType.BeaconBlockVerified) := by
  cases t <;> simp [acceptsBlk]

theorem acceptsSidecars_eq (t : EventType) :
    acceptsSidecars t
      = decide (t = EventType.BlobSidecarsBuilt ∨ t = EventType.BlobSidecarsVerified
          ∨ t = EventType.BlobSidecarsProcessed) := by
  cases t <;> simp [acceptsSidecars]

theorem envStep_pc_trace (a : EnvAct B S) (s t : State B S) (hstep : envStep a s = some t) :
    t.pc = s.pc ∧ t.trace = s.trace := by
  cases a with
  | cancel =>
    simp only [envStep, Option.some.injEq] at hstep
    subst hstep
    exact ⟨rfl, rfl⟩
  | feedBlk e =>
    simp only [envStep] at hstep
    split at hstep
    · split at hstep
      · simp only [Option.some.injEq] at hstep
        subst hstep
        exact ⟨rfl, rfl⟩
      · cases hstep
    · cases hstep
  | feedSidecars e =>
    simp only [envStep] at hstep
    split at hstep
    · split at hstep
      · simp only [Option.some.injEq] at hstep
        subst hstep
        exact ⟨rfl, rfl⟩
      · cases hstep
    · cases hstep
  | takeBlk =>
    simp only [envStep] at hstep
    split at hstep
    · simp only [Option.some.injEq] at hstep
      subst hstep
      exact ⟨rfl, rfl⟩
    · cases hstep
  | takeSidecars =>
    simp only [envStep] at hstep
    split at hstep
    · simp only [Option.some.injEq] at hstep
      subst hstep
      exact ⟨rfl, rfl⟩
    · cases hstep
  | otherSubscribeBlk =>
    simp only [envStep, Option.some.injEq] at hstep
    subst hstep
    exact ⟨rfl, rfl⟩
  | otherUnsubscribeBlk x =>
    simp only [envStep] at hstep
    split at hstep
    · cases hstep
    · simp only [Option.some.injEq] at hstep
      subst hstep
      exact ⟨rfl, rfl⟩
  | otherSubscribeSidecars =>
    simp only [envStep, Option.some.injEq] at hstep
    subst hstep
    exact ⟨rfl, rfl⟩
  | otherUnsubscribeSidecars x =>
    simp only [envStep] at hstep
    split at hstep
    · cases hstep
    · simp only [Option.some.injEq] at hstep
      subst hstep
      exact ⟨rfl, rfl⟩

/-- Once `start` has returned, no move of the system changes the goroutine's history. -/
theorem systemReach_of_returned (s t : State B S) (hpc : s.pc = PC.returned)
    (hr : SystemReach s t) : t.pc = PC.returned ∧ t.trace = s.trace := by
  induction hr with
  | refl => exact ⟨hpc, rfl⟩
  | tail _ hstep ih =>
    obtain ⟨ih1, ih2⟩ := ih
    rcases hstep with hstep | ⟨e, hstep⟩
    · simp [loopSteps, ih1] at hstep
    · obtain ⟨h1, h2⟩ := envStep_pc_trace e _ _ hstep
      exact ⟨h1.trans ih1, h2.trans ih2⟩

theorem reachable_droppedState : Reachable droppedState :=
  Reachable.loop
    (Reachable.loop
      (Reachable.loop
        (Reachable.env EnvAct.cancel
          (Reachable.env (EnvAct.feedBlk builtEvent) reachable_run2
            (show envStep (EnvAct.feedBlk builtEvent) run2 = some run3 by decide))
          (show envStep EnvAct.cancel run3 = some dropRun4 by decide))
        (show dropRun5 ∈ loopSteps dropRun4 by decide))
      (show dropRun6 ∈ loopSteps dropRun5 by decide))
    (show droppedState ∈ loopSteps dropRun6 by decide)

/-- C10 (as amended). Forwarding order: in every reachable state, the events the
goroutine has put on `am.blkCh`, followed by the event it holds at `am.blkCh <- msg` if
it stands there, are exactly the events of type BeaconBlockBuilt or BeaconBlockVerified
among those it received from the block feed, in the order received, each once and
unchanged; the events it received followed by those still buffered in `subBlkCh` are
exactly the events the feed delivered, in order; hence the accepted events among those
delivered are those put, then the one held, then the accepted ones still buffered; and
`am.blkCh` holds the most recent of the events put on it. The same holds for the
sidecars feed, `am.sidecarsCh` and the types BlobSidecarsBuilt, BlobSidecarsVerified
and BlobSidecarsProcessed. At the select and after `start` returned, what was put
equals what was accepted among the events received. At the select the oldest buffered
event can be received, and at a send the held event is put as soon as the delivery
channel has room. -/
theorem C10_forwarding_order (s : State B S) (hr : Reachable s) :
    putsBlk s.trace ++ pendingBlk s.pc
      = (recvsBlk s.trace).filter (fun e =>
          decide (e.type = EventType.BeaconBlockBuilt ∨
            e.type = EventType.BeaconBlockVerified)) ∧
    putsSidecars s.trace ++ pendingSidecars s.pc
      = (recvsSidecars s.trace).filter (fun e =>
          decide (e.type = EventType.BlobSidecarsBuilt ∨
            e.type = EventType.BlobSidecarsVerified ∨
            e.type = EventType.BlobSidecarsProcessed)) ∧
    recvsBlk s.trace ++ s.subBlkCh = s.fedBlk ∧
    recvsSidecars s.trace ++ s.subSidecarsCh = s.fedSidecars ∧
    (∃ taken, putsBlk s.trace = taken ++ s.blkCh) ∧
    (∃ taken, putsSidecars s.trace = taken ++ s.sidecarsCh) ∧
    (s.pc = PC.select ∨ s.pc = PC.returned →
      putsBlk s.trace
        = (recvsBlk s.trace).filter (fun e =>
            decide (e.type = EventType.BeaconBlockBuilt ∨
              e.type = EventType.BeaconBlockVerified)) ∧
      putsSidecars s.trace
        = (recvsSidecars s.trace).filter (fun e =>
            decide (e.type = EventType.BlobSidecarsBuilt ∨
              e.type = EventType.BlobSidecarsVerified ∨
              e.type = EventType.BlobSidecarsProcessed))) ∧
    s.fedBlk.filter (fun e =>
        decide (e.type = EventType.BeaconBlockBuilt ∨
          e.type = EventType.BeaconBlockVerified))
      = putsBlk s.trace ++ pendingBlk s.pc ++
          s.subBlkCh.filter (fun e =>
            decide (e.type = EventType.BeaconBlockBuilt ∨
              e.type = EventType.BeaconBlockVerified)) ∧
    s.fedSidecars.filter (fun e =>
        decide (e.type = EventType.BlobSidecarsBuilt ∨
          e.type = EventType.BlobSidecarsVerified ∨
          e.type = EventType.BlobSidecarsProcessed))
      = putsSidecars s.trace ++ pendingSidecars s.pc ++
          s.subSidecarsCh.filter (fun e =>
            decide (e.type = EventType.BlobSidecarsBuilt ∨
              e.type = EventType.BlobSidecarsVerified ∨
              e.type = EventType.BlobSidecarsProcessed)) ∧
    (∀ msg rest, s.pc = PC.select → s.subBlkCh = msg :: rest →
      ∃ t ∈ loopSteps s, t.trace = s.trace ++ [Act.recvBlk msg] ∧ t.subBlkCh = rest) ∧
    (∀ msg rest, s.pc = PC.select → s.subSidecarsCh = msg :: rest →
      ∃ t ∈ loopSteps s,
        t.trace = s.trace ++ [Act.recvSidecars msg] ∧ t.subSidecarsCh = rest) ∧
    (∀ msg, s.pc = PC.sendBlk msg → s.blkCh.length < chanCap →
      ∃ t ∈ loopSteps s, t.trace = s.trace ++ [Act.putBlk msg] ∧
        t.blkCh = s.blkCh ++ [msg]) ∧
    (∀ msg, s.pc = PC.sendSidecars msg → s.sidecarsCh.length < chanCap →
      ∃ t ∈ loopSteps s, t.trace = s.trace ++ [Act.putSidecars msg] ∧
        t.sidecarsCh = s.sidecarsCh ++ [msg]) := by
  obtain ⟨a1, a2, a3, a4, a5, a6⟩ := forwardInv_of_reachable s hr
  simp only [acceptsBlk_eq] at a1
  simp only [acceptsSidecars_eq] at a2
  refine ⟨a1, a2, a3, a4, a5, a6, fun hpc => ?_, ?_, ?_, ?_, ?_, ?_, ?_⟩
  · rcases hpc with hpc | hpc <;> rw [hpc] at a1 a2 <;>
      simp only [pendingBlk, pendingSidecars, List.append_nil] at a1 a2 <;>
      exact ⟨a1, a2⟩
  · rw [← a3, List.filter_append, ← a1]
  · rw [← a4, List.filter_append, ← a2]
  · intro msg rest hpc hch
    exact ⟨{ s with pc := onBlkMsg msg, subBlkCh := rest,
                    trace := s.trace ++ [Act.recvBlk msg] },
      by simp [loopSteps, hpc, selectBlk, hch], rfl, rfl⟩
  · intro msg rest hpc hch
    exact ⟨{ s with pc := onSidecarsMsg msg, subSidecarsCh := rest,
                    trace := s.trace ++ [Act.recvSidecars msg] },
      by simp [loopSteps, hpc, selectSidecars, hch], rfl, rfl⟩
  · intro msg hpc hroom
    exact ⟨{ s with pc := PC.select, blkCh := s.blkCh ++ [msg],
                    trace := s.trace ++ [Act.putBlk msg] },
      by simp [loopSteps, hpc, hroom], rfl, rfl⟩
  · intro msg hpc hroom
    exact ⟨{ s with pc := PC.select, sidecarsCh := s.sidecarsCh ++ [msg],
                    trace := s.trace ++ [Act.putSidecars msg] },
      by simp [loopSteps, hpc, hroom], rfl, rfl⟩

/-- Witness of C10 (as amended): after forwarding `builtEvent`, the loop holds
`verifiedEvent` at the send on the full `am.blkCh`. -/
theorem C10_forwarding_order_witness :
    Reachable run7 ∧ putsBlk run7.trace = [builtEvent] ∧
      pendingBlk run7.pc = [verifiedEvent] ∧
      putsBlk run7.trace ++ pendingBlk run7.pc
        = (recvsBlk run7.trace).filter (fun e =>
            decide (e.type = EventType.BeaconBlockBuilt ∨
              e.type = EventType.BeaconBlockVerified)) :=
  ⟨reachable_run7, rfl, rfl, (C10_forwarding_order run7 reachable_run7).1⟩

/-- C10, counterexample to the claim as stated. The state `droppedState` is reachable:
the block feed delivers the BeaconBlockBuilt event `builtEvent` into `subBlkCh`, the
context is cancelled, the select takes `case <-ctx.Done()` and `start` returns after
its two deferred calls. There the sequence delivered by the block feed is
`[builtEvent]`, of an accepted type, while nothing was put on `am.blkCh`: the sequence
put is not the accepted subsequence of the sequence delivered. The event is still in
`subBlkCh`, the goroutine has no move left, and in no state the system reaches from
there has anything been put on `am.blkCh`: the event is dropped. -/
theorem C10_drop_on_cancel_counterexample :
    Reachable droppedState ∧ droppedState.pc = PC.returned ∧
      droppedState.fedBlk = [builtEvent] ∧
      builtEvent.type = EventType.BeaconBlockBuilt ∧
      droppedState.subBlkCh = [builtEvent] ∧
      putsBlk droppedState.trace = [] ∧
      putsBlk droppedState.trace
        ≠ droppedState.fedBlk.filter (fun e =>
            decide (e.type = EventType.BeaconBlockBuilt ∨
              e.type = EventType.BeaconBlockVerified)) ∧
      loopSteps droppedState = [] ∧
      ∀ t, SystemReach droppedState t → t.pc = PC.returned ∧ putsBlk t.trace = [] := by
  refine ⟨reachable_droppedState, rfl, rfl, rfl, rfl, rfl, by decide, by decide, ?_⟩
  intro t ht
  obtain ⟨h1, h2⟩ := systemReach_of_returned droppedState t rfl ht
  exact ⟨h1, by rw [h2]; rfl⟩

end Loop

end BeaconKit

namespace BeaconKit

/-! ## Layout and canonicity of the DepositMessage encoding -/

theorem MarshalSSZTo_eq (m : DepositMessage) (buf : List Nat) :
    (m.MarshalSSZTo buf).1
      = buf ++ (m.Pubkey ++ (m.Credentials ++ putUint64LE (toUint64 (toUint64 m.Amount)))) := by
  simp [DepositMessage.MarshalSSZTo, MarshalUint64, goAppend]

theorem putUint64LE_digits (v : Nat) :
    putUint64LE v
      = [v % 256, v / 256 % 256, v / 256 ^ 2 % 256, v / 256 ^ 3 % 256, v / 256 ^ 4 % 256,
         v / 256 ^ 5 % 256, v / 256 ^ 6 % 256, v / 256 ^ 7 % 256] := by
  simp only [putUint64LE, toByte, Nat.shiftRight_eq_div_pow]
  norm_num

/-- Reading eight bytes little-endian gives their base-256 value. -/
theorem UnmarshallUint64_eq_sum (b0 b1 b2 b3 b4 b5 b6 b7 : Nat)
    (h0 : b0 < 256) (h1 : b1 < 256) (h2 : b2 < 256) (h3 : b3 < 256)
    (h4 : b4 < 256) (h5 : b5 < 256) (h6 : b6 < 256) (h7 : b7 < 256) :
    UnmarshallUint64 [b0, b1, b2, b3, b4, b5, b6, b7]
      = b0 + b1 * 2 ^ 8 + b2 * 2 ^ 16 + b3 * 2 ^ 24 + b4 * 2 ^ 32 + b5 * 2 ^ 40
          + b6 * 2 ^ 48 + b7 * 2 ^ 56 := by
  simp only [UnmarshallUint64, toUint64, List.getD_cons_zero, List.getD_cons_succ,
    Nat.shiftLeft_eq]
  have e0 : b0 % 2 ^ 64 = b0 := Nat.mod_eq_of_lt (by omega)
  have e1 : b1 % 2 ^ 64 * 2 ^ 8 % 2 ^ 64 = b1 * 2 ^ 8 := by omega
  have e2 : b2 % 2 ^ 64 * 2 ^ 16 % 2 ^ 64 = b2 * 2 ^ 16 := by omega
  have e3 : b3 % 2 ^ 64 * 2 ^ 24 % 2 ^ 64 = b3 * 2 ^ 24 := by omega
  have e4 : b4 % 2 ^ 64 * 2 ^ 32 % 2 ^ 64 = b4 * 2 ^ 32 := by omega
  have e5 : b5 % 2 ^ 64 * 2 ^ 40 % 2 ^ 64 = b5 * 2 ^ 40 := by omega
  have e6 : b6 % 2 ^ 64 * 2 ^ 48 % 2 ^ 64 = b6 * 2 ^ 48 := by omega
  have e7 : b7 % 2 ^ 64 * 2 ^ 56 % 2 ^ 64 = b7 * 2 ^ 56 := by omega
  rw [e0, e1, e2, e3, e4, e5, e6, e7]
  rw [lor_mul_pow_eq_add _ _ 8 (by omega)]
  rw [lor_mul_pow_eq_add _ _ 16 (by omega)]
  rw [lor_mul_pow_eq_add _ _ 24 (by omega)]
  rw [lor_mul_pow_eq_add _ _ 32 (by omega)]
  rw [lor_mul_pow_eq_add _ _ 40 (by omega)]
  rw [lor_mul_pow_eq_add _ _ 48 (by omega)]
  rw [lor_mul_pow_eq_add _ _ 56 (by omega)]

/-- The digit at bit offset `k` of a number written as a low part below `2 ^ k`, a
byte at offset `k` and a rest above it. -/
theorem digit_extract (low b r k : Nat) (hlow : low < 2 ^ k) (hb : b < 256) :
    (low + 2 ^ k * (b + 256 * r)) / 2 ^ k % 256 = b := by
  rw [Nat.add_mul_div_left _ _ (Nat.two_pow_pos k), Nat.div_eq_of_lt hlow, Nat.zero_add,
    Nat.add_mul_mod_self_left, Nat.mod_eq_of_lt hb]

/-- Eight bytes are a list of eight elements. -/
theorem eq_eight_of_length (bs : List Nat) (h : bs.length = 8) :
    ∃ b0 b1 b2 b3 b4 b5 b6 b7, bs = [b0, b1, b2, b3, b4, b5, b6, b7] := by
  match bs, h with
  | [b0, b1, b2, b3, b4, b5, b6, b7], _ => exact ⟨b0, b1, b2, b3, b4, b5, b6, b7, rfl⟩

/-- Writing back what was read from eight bytes gives the same eight bytes, and the
value read is a uint64. -/
theorem putUint64LE_unmarshall (bs : List Nat) (hlen : bs.length = 8)
    (hb : ∀ x ∈ bs, x < 256) :
    UnmarshallUint64 bs < 2 ^ 64 ∧ putUint64LE (UnmarshallUint64 bs) = bs := by
  obtain ⟨b0, b1, b2, b3, b4, b5, b6, b7, rfl⟩ := eq_eight_of_length bs hlen
  have h0 : b0 < 256 := hb b0 (by simp)
  have h1 : b1 < 256 := hb b1 (by simp)
  have h2 : b2 < 256 := hb b2 (by simp)
  have h3 : b3 < 256 := hb b3 (by simp)
  have h4 : b4 < 256 := hb b4 (by simp)
  have h5 : b5 < 256 := hb b5 (by simp)
  have h6 : b6 < 256 := hb b6 (by simp)
  have h7 : b7 < 256 := hb b7 (by simp)
  rw [UnmarshallUint64_eq_sum b0 b1 b2 b3 b4 b5 b6 b7 h0 h1 h2 h3 h4 h5 h6 h7]
  refine ⟨by omega, ?_⟩
  simp only [putUint64LE, toByte, Nat.shiftRight_eq_div_pow]
  have d0 : (b0 + b1 * 2 ^ 8 + b2 * 2 ^ 16 + b3 * 2 ^ 24 + b4 * 2 ^ 32 + b5 * 2 ^ 40
      + b6 * 2 ^ 48 + b7 * 2 ^ 56) % 256 = b0 := by omega
  have d1 : (b0 + b1 * 2 ^ 8 + b2 * 2 ^ 16 + b3 * 2 ^ 24 + b4 * 2 ^ 32 + b5 * 2 ^ 40
      + b6 * 2 ^ 48 + b7 * 2 ^ 56) / 2 ^ 8 % 256 = b1 := by
    have e : (b0 + b1 * 2 ^ 8 + b2 * 2 ^ 16 + b3 * 2 ^ 24 + b4 * 2 ^ 32 + b5 * 2 ^ 40
      + b6 * 2 ^ 48 + b7 * 2 ^ 56)
        = (b0) + 2 ^ 8 * (b1 + 256 * (b2 + b3 * 2 ^ 8 + b4 * 2 ^ 16 + b5 * 2 ^ 24 + b6 * 2 ^ 32 + b7 * 2 ^ 40)) := by ring
    rw [e]
    exact digit_extract _ _ _ 8 (by omega) h1
  have d2 : (b0 + b1 * 2 ^ 8 + b2 * 2 ^ 16 + b3 * 2 ^ 24 + b4 * 2 ^ 32 + b5 * 2 ^ 40
      + b6 * 2 ^ 48 + b7 * 2 ^ 56) / 2 ^ 16 % 256 = b2 := by
    have e : (b0 + b1 * 2 ^ 8 + b2 * 2 ^ 16 + b3 * 2 ^ 24 + b4 * 2 ^ 32 + b5 * 2 ^ 40
      + b6 * 2 ^ 48 + b7 * 2 ^ 56)
        = (b0 + b1 * 2 ^ 8) + 2 ^ 16 * (b2 + 256 * (b3 + b4 * 2 ^ 8 + b5 * 2 ^ 16 + b6 * 2 ^ 24 + b7 * 2 ^ 32)) := by ring
    rw [e]
    exact digit_extract _ _ _ 16 (by omega) h2
  have d3 : (b0 + b1 * 2 ^ 8 + b2 * 2 ^ 16 + b3 * 2 ^ 24 + b4 * 2 ^ 32 + b5 * 2 ^ 40
      + b6 * 2 ^ 48 + b7 * 2 ^ 56) / 2 ^ 24 % 256 = b3 := by
    have e : (b0 + b1 * 2 ^ 8 + b2 * 2 ^ 16 + b3 * 2 ^ 24 + b4 * 2 ^ 32 + b5 * 2 ^ 40
      + b6 * 2 ^ 48 + b7 * 2 ^ 56)
        = (b0 + b1 * 2 ^ 8 + b2 * 2 ^ 16) + 2 ^ 24 * (b3 + 256 * (b4 + b5 * 2 ^ 8 + b6 * 2 ^ 16 + b7 * 2 ^ 24)) := by ring
    rw [e]
    exact digit_extract _ _ _ 24 (by omega) h3
  have d4 : (b0 + b1 * 2 ^ 8 + b2 * 2 ^ 16 + b3 * 2 ^ 24 + b4 * 2 ^ 32 + b5 * 2 ^ 40
      + b6 * 2 ^ 48 + b7 * 2 ^ 56) / 2 ^ 32 % 256 = b4 := by
    have e : (b0 + b1 * 2 ^ 8 + b2 * 2 ^ 16 + b3 * 2 ^ 24 + b4 * 2 ^ 32 + b5 * 2 ^ 40
      + b6 * 2 ^ 48 + b7 * 2 ^ 56)
        = (b0 + b1 * 2 ^ 8 + b2 * 2 ^ 16 + b3 * 2 ^ 24) + 2 ^ 32 * (b4 + 256 * (b5 + b6 * 2 ^ 8 + b7 * 2 ^ 16)) := by ring
    rw [e]
    exact digit_extract _ _ _ 32 (by omega) h4
  have d5 : (b0 + b1 * 2 ^ 8 + b2 * 2 ^ 16 + b3 * 2 ^ 24 + b4 * 2 ^ 32 + b5 * 2 ^ 40
      + b6 * 2 ^ 48 + b7 * 2 ^ 56) / 2 ^ 40 % 256 = b5 := by
    have e : (b0 + b1 * 2 ^ 8 + b2 * 2 ^ 16 + b3 * 2 ^ 24 + b4 * 2 ^ 32 + b5 * 2 ^ 40
      + b6 * 2 ^ 48 + b7 * 2 ^ 56)
        = (b0 + b1 * 2 ^ 8 + b2 * 2 ^ 16 + b3 * 2 ^ 24 + b4 * 2 ^ 32) + 2 ^ 40 * (b5 + 256 * (b6 + b7 * 2 ^ 8)) := by ring
    rw [e]
    exact digit_extract _ _ _ 40 (by omega) h5
  have d6 : (b0 + b1 * 2 ^ 8 + b2 * 2 ^ 16 + b3 * 2 ^ 24 + b4 * 2 ^ 32 + b5 * 2 ^ 40
      + b6 * 2 ^ 48 + b7 * 2 ^ 56) / 2 ^ 48 % 256 = b6 := by
    have e : (b0 + b1 * 2 ^ 8 + b2 * 2 ^ 16 + b3 * 2 ^ 24 + b4 * 2 ^ 32 + b5 * 2 ^ 40
      + b6 * 2 ^ 48 + b7 * 2 ^ 56)
        = (b0 + b1 * 2 ^ 8 + b2 * 2 ^ 16 + b3 * 2 ^ 24 + b4 * 2 ^ 32 + b5 * 2 ^ 40) + 2 ^ 48 * (b6 + 256 * (b7)) := by ring
    rw [e]
    exact digit_extract _ _ _ 48 (by omega) h6
  have d7 : (b0 + b1 * 2 ^ 8 + b2 * 2 ^ 16 + b3 * 2 ^ 24 + b4 * 2 ^ 32 + b5 * 2 ^ 40
      + b6 * 2 ^ 48 + b7 * 2 ^ 56) / 2 ^ 56 % 256 = b7 := by
    have e : (b0 + b1 * 2 ^ 8 + b2 * 2 ^ 16 + b3 * 2 ^ 24 + b4 * 2 ^ 32 + b5 * 2 ^ 40
      + b6 * 2 ^ 48 + b7 * 2 ^ 56)
        = (b0 + b1 * 2 ^ 8 + b2 * 2 ^ 16 + b3 * 2 ^ 24 + b4 * 2 ^ 32 + b5 * 2 ^ 40 + b6 * 2 ^ 48) + 2 ^ 56 * (b7 + 256 * (0)) := by ring
    rw [e]
    exact digit_extract _ _ _ 56 (by omega) h7
  rw [d0, d1, d2, d3, d4, d5, d6, d7]

/-- An 88-byte buffer is its three field slices one after the other. -/
theorem goSlice_split (b : List Nat) (hb : b.length = 88) :
    b = goSlice b 0 48 ++ (goSlice b 48 80 ++ goSlice b 80 88) := by
  have h3 : goSlice b 80 88 = b.drop 80 := by
    simp only [goSlice]
    exact List.take_of_length_le (by simp [hb])
  have h2 : goSlice b 48 80 ++ b.drop 80 = b.drop 48 := by
    have : b.drop 80 = (b.drop 48).drop 32 := by simp [List.drop_drop]
    simp only [goSlice]
    rw [this]
    exact List.take_append_drop 32 (b.drop 48)
  rw [h3, h2]
  simp only [goSlice, List.drop_zero]
  exact (List.take_append_drop 48 b).symm

/-- C11. Layout of the encoding: for every well-formed message `m` and every
destination buffer `buf`, the slice returned by `MarshalSSZTo(buf)` is `buf`, then the
48 Pubkey bytes, then the 32 Credentials bytes, then the eight base-256 digits of
Amount, least significant first, and nothing else: `buf` is its prefix and the three
fields sit at offsets `len buf`, `len buf + 48` and `len buf + 80`. -/
theorem C11_encoding_layout (m : DepositMessage) (buf : List Nat) (hm : m.WellFormed) :
    (m.MarshalSSZTo buf).1
      = buf ++ m.Pubkey ++ m.Credentials ++
          [m.Amount % 256, m.Amount / 256 % 256, m.Amount / 256 ^ 2 % 256,
           m.Amount / 256 ^ 3 % 256, m.Amount / 256 ^ 4 % 256, m.Amount / 256 ^ 5 % 256,
           m.Amount / 256 ^ 6 % 256, m.Amount / 256 ^ 7 % 256] ∧
    (m.MarshalSSZTo buf).1.take buf.length = buf ∧
    ((m.MarshalSSZTo buf).1.drop buf.length).take 48 = m.Pubkey ∧
    ((m.MarshalSSZTo buf).1.drop (buf.length + 48)).take 32 = m.Credentials ∧
    (m.MarshalSSZTo buf).1.drop (buf.length + 80)
      = [m.Amount % 256, m.Amount / 256 % 256, m.Amount / 256 ^ 2 % 256,
         m.Amount / 256 ^ 3 % 256, m.Amount / 256 ^ 4 % 256, m.Amount / 256 ^ 5 % 256,
         m.Amount / 256 ^ 6 % 256, m.Amount / 256 ^ 7 % 256] := by
  obtain ⟨hp, hc, ha, -, -⟩ := hm
  have ea : toUint64 (toUint64 m.Amount) = m.Amount := by
    simp only [toUint64]; omega
  have e := MarshalSSZTo_eq m buf
  rw [ea, putUint64LE_digits] at e
  refine ⟨by rw [e]; simp, ?_, ?_, ?_, ?_⟩
  · rw [e]
    exact take_append_of_length _ _ _ rfl
  · rw [e, drop_append_of_length _ _ _ rfl]
    exact take_append_of_length _ _ _ hp
  · rw [e, ← List.append_assoc,
      drop_append_of_length (buf ++ m.Pubkey) _ _ (by simp [hp])]
    exact take_append_of_length _ _ _ hc
  · rw [e, ← List.append_assoc, ← List.append_assoc,
      drop_append_of_length (buf ++ m.Pubkey ++ m.Credentials) _ _
        (by simp [hp, hc])]

/-- Witness of C11 at `sampleMessage` and a three-byte buffer. -/
theorem C11_encoding_layout_witness :
    sampleMessage.WellFormed ∧
      (sampleMessage.MarshalSSZTo [1, 2, 3]).1
        = [1, 2, 3] ++ sampleMessage.Pubkey ++ sampleMessage.Credentials ++
            [0, 64, 89, 115, 7, 0, 0, 0] :=
  ⟨by decide, (C11_encoding_layout sampleMessage [1, 2, 3] (by decide)).1⟩

theorem mem_of_mem_goSlice (b : List Nat) (lo hi x : Nat) (h : x ∈ goSlice b lo hi) :
    x ∈ b :=
  List.mem_of_mem_drop (List.mem_of_mem_take h)

/-- Decoding the encoding of a well-formed message on the empty buffer reads back its
three fields. -/
theorem goSlice_MarshalSSZTo (m : DepositMessage) (hm : m.WellFormed) :
    goSlice (m.MarshalSSZTo []).1 0 48 = m.Pubkey ∧
    goSlice (m.MarshalSSZTo []).1 48 80 = m.Credentials ∧
    UnmarshallUint64 (goSlice (m.MarshalSSZTo []).1 80 88) = m.Amount := by
  obtain ⟨hp, hc, ha, -, -⟩ := hm
  have ea : toUint64 (toUint64 m.Amount) = m.Amount := by
    simp only [toUint64]; omega
  have e := MarshalSSZTo_eq m []
  rw [ea, List.nil_append] at e
  refine ⟨?_, ?_, ?_⟩
  · rw [e, goSlice, List.drop_zero]
    exact take_append_of_length _ _ _ hp
  · rw [e, goSlice, drop_append_of_length _ _ _ hp]
    exact take_append_of_length _ _ _ hc
  · rw [e, goSlice, ← List.append_assoc,
      drop_append_of_length (m.Pubkey ++ m.Credentials) _ _ (by simp [hp, hc]),
      List.take_of_length_le (by simp [putUint64LE_length])]
    exact uint64_le_roundtrip _ ha

/-- C12. Canonical encoding: for every buffer `b` of 88 bytes and every well-formed
receiver `d`, `UnmarshalSSZ(b)` returns no error and leaves a well-formed message
whose `MarshalSSZTo` on the empty buffer returns `b` again, with no error; and every
well-formed message whose encoding is `b` is that decoded message, so `b` is the
encoding of exactly one DepositMessage. -/
theorem C12_canonical_encoding (b : List Nat) (d : DepositMessage) (hb : b.length = 88)
    (hbytes : ∀ x ∈ b, x < 256) (hd : d.WellFormed) :
    (d.UnmarshalSSZ b).2 = none ∧
    (d.UnmarshalSSZ b).1.WellFormed ∧
    (d.UnmarshalSSZ b).1.MarshalSSZTo [] = (b, none) ∧
    (∀ m : DepositMessage, m.WellFormed → (m.MarshalSSZTo []).1 = b →
      m = (d.UnmarshalSSZ b).1) := by
  rw [UnmarshalSSZ_of_size d b hb hd.1 hd.2.1]
  have lp : (goSlice b 0 48).length = 48 := goSlice_length b 0 48 (by omega)
  have lc : (goSlice b 48 80).length = 32 := goSlice_length b 48 80 (by omega)
  have la : (goSlice b 80 88).length = 8 := goSlice_length b 80 88 (by omega)
  obtain ⟨hlt, hback⟩ :=
    putUint64LE_unmarshall (goSlice b 80 88) la
      (fun x hx => hbytes x (mem_of_mem_goSlice b 80 88 x hx))
  refine ⟨rfl, ?_, ?_, ?_⟩
  · exact ⟨lp, lc, hlt, fun x hx => hbytes x (mem_of_mem_goSlice b 0 48 x hx),
      fun x hx => hbytes x (mem_of_mem_goSlice b 48 80 x hx)⟩
  · refine Prod.ext ?_ rfl
    have ea : toUint64 (toUint64 (UnmarshallUint64 (goSlice b 80 88)))
        = UnmarshallUint64 (goSlice b 80 88) := by
      simp only [toUint64]; omega
    show (DepositMessage.MarshalSSZTo _ []).1 = b
    rw [MarshalSSZTo_eq, ea, hback, List.nil_append]
    exact (goSlice_split b hb).symm
  · intro m hm he
    obtain ⟨s1, s2, s3⟩ := goSlice_MarshalSSZTo m hm
    rw [he] at s1 s2 s3
    show m = { Pubkey := goSlice b 0 48, Credentials := goSlice b 48 80,
               Amount := UnmarshallUint64 (goSlice b 80 88) }
    rw [s1, s2, s3]

/-- Witness of C12 at the buffer of 88 bytes `0xff`, decoded into the zero message. -/
theorem C12_canonical_encoding_witness :
    (List.replicate 88 255).length = 88 ∧ zeroMessage.WellFormed ∧
      (zeroMessage.UnmarshalSSZ (List.replicate 88 255)).1.MarshalSSZTo []
        = (List.replicate 88 255, none) :=
  ⟨by decide, by decide,
    (C12_canonical_encoding (List.replicate 88 255) zeroMessage (by decide) (by decide)
      (by decide)).2.2.1⟩

end BeaconKit
